import Mathlib

/-!
Verification of the bulk dispatch engine of the `cooker` repository.

The development shallowly embeds the dispatch-relevant parts of
`scripts/generate_recipe_translations.mistral.py`,
`scripts/generate_recipe_images.py` and `generate_recipes.mistral.py`.
Python strings are modelled as `List Char` (one entry per code point,
matching Python's `str` indexing); Python dicts and sets are modelled as
association lists with first-match lookup and in-place replacement, which
reproduces dict update semantics; fallible operations are modelled with
`Option`/`Except`; the external service is an oracle supplied as a function
argument.
-/

/-- Python strings are sequences of code points; `List Char` matches the
indexing and slicing semantics used by the scripts. -/
abbrev PyStr := List Char

/-- Shorthand turning a Lean string literal into the `PyStr` model. -/
def strv (s : String) : PyStr := s.data

/-- Whitespace characters removed by Python's `str.strip()` (the scripts only
ever deal with ASCII whitespace). -/
def isPySpace (c : Char) : Bool :=
  c = ' ' || c = '\t' || c = '\n' || c = '\r' || c = Char.ofNat 11 || c = Char.ofNat 12

/-- Python `str.lstrip()`. -/
def pyLStrip (s : PyStr) : PyStr := s.dropWhile isPySpace

/-- Python `str.rstrip()`. -/
def pyRStrip (s : PyStr) : PyStr := (s.reverse.dropWhile isPySpace).reverse

/-- Python `str.strip()`. -/
def pyStrip (s : PyStr) : PyStr := pyRStrip (pyLStrip s)

/-- Python `str.lower()` (ASCII is all the scripts use). -/
def pyLower (s : PyStr) : PyStr := s.map Char.toLower

/-- Python `s.startswith(p)`. -/
def hasPref : PyStr → PyStr → Bool
  | _, [] => true
  | [], _ :: _ => false
  | c :: s, p :: ps => c = p && hasPref s ps

/-- Python `s.endswith(p)`. -/
def pyEndsWith (s p : PyStr) : Bool := hasPref s.reverse p.reverse

/-- Index of the first newline, `none` when there is none
(Python `s.find("\n")` returns `-1` in the `none` case). -/
def idxOfNL : PyStr → Option Nat
  | [] => none
  | c :: s => if c = '\n' then some 0 else (idxOfNL s).map (· + 1)

/-- Index of the last newline, `none` when there is none
(Python `s.rfind("\n")` returns `-1` in the `none` case). -/
def rIdxOfNL (s : PyStr) : Option Nat :=
  (idxOfNL s.reverse).map (fun i => s.length - 1 - i)

/-- The three-backtick fence marker. -/
def backtick3 : PyStr := strv "```"

/-- First statement of the fence normalisation
(`if text.startswith("```"): text = text[text.find("\n")+1:]`): with a
newline at index `i` the slice start is `i+1`; without one, `find` returns
`-1` and the slice start is `0`, leaving the text unchanged. -/
def fenceHeadStep (t : PyStr) : PyStr :=
  if hasPref t backtick3 then
    match idxOfNL t with
    | some i => t.drop (i + 1)
    | none => t.drop 0
  else t

/-- Second statement of the fence normalisation
(`if text.strip().endswith("```"): text = text[:text.rfind("\n")]`): with a
last newline at index `j` the slice keeps the first `j` characters; without
one, `rfind` returns `-1` and `text[:-1]` drops the single last character. -/
def fenceTailStep (t : PyStr) : PyStr :=
  if pyEndsWith (pyStrip t) backtick3 then
    match rIdxOfNL t with
    | some j => t.take j
    | none => t.dropLast
  else t

/-- Code-fence normalisation of the synchronous path, translated from
`translate_recipe` (generate_recipe_translations.mistral.py lines 198-201). -/
def stripFenceSync (text0 : PyStr) : PyStr :=
  let text1 :=
    if hasPref text0 backtick3 then
      match idxOfNL text0 with
      | some i => text0.drop (i + 1)
      | none => text0.drop 0
    else text0
  if pyEndsWith (pyStrip text1) backtick3 then
    match rIdxOfNL text1 with
    | some j => text1.take j
    | none => text1.dropLast
  else text1

/-- Code-fence normalisation of the batch path, translated from
`translate_recipes_batch` (generate_recipe_translations.mistral.py
lines 448-451). -/
def stripFenceBatch (translated0 : PyStr) : PyStr :=
  let translated1 :=
    if hasPref translated0 backtick3 then
      match idxOfNL translated0 with
      | some i => translated0.drop (i + 1)
      | none => translated0.drop 0
    else translated0
  if pyEndsWith (pyStrip translated1) backtick3 then
    match rIdxOfNL translated1 with
    | some j => translated1.take j
    | none => translated1.dropLast
  else translated1

/-- Association-list model of a Python dict lookup (`d.get(k)`). -/
def dget {κ α : Type} [DecidableEq κ] : List (κ × α) → κ → Option α
  | [], _ => none
  | (k', v) :: m, k => if k' = k then some v else dget m k

/-- Association-list model of a Python dict assignment (`d[k] = v`): replaces
the existing binding in place or appends a fresh one. -/
def dset {κ α : Type} [DecidableEq κ] : List (κ × α) → κ → α → List (κ × α)
  | [], k, v => [(k, v)]
  | (k', v') :: m, k, v =>
      if k' = k then (k, v) :: m else (k', v') :: dset m k v

/-- Model of Python `set.add`. -/
def setAdd {α : Type} [DecidableEq α] (s : List α) (a : α) : List α :=
  if a ∈ s then s else s ++ [a]

/-- Model of Python `set.discard`. -/
def setDiscard {α : Type} [DecidableEq α] (s : List α) (a : α) : List α :=
  s.filter (fun x => decide (x ≠ a))

/-- JSON values, as produced by `json.loads` on batch output lines. -/
inductive JVal
  | nullv
  | boolv (b : Bool)
  | numv (n : Int)
  | strjv (s : PyStr)
  | arrv (xs : List JVal)
  | objv (fs : List (PyStr × JVal))

/-- Contribution of one element of a JSON list content to
`_coerce_message_content`: parsed-JSON elements are plain values, so only
string elements are appended (`getattr(item, "text"/"content", None)` is
`None` on a plain dict or number). -/
def jPartContrib : JVal → PyStr
  | .strjv s => s
  | _ => []

/-- Model of `_coerce_message_content` applied to a value coming from
`json.loads` (the batch path): a string is stripped, a list is joined over
its string elements and stripped, everything else gives the empty string. -/
def coerceJContent : JVal → PyStr
  | .strjv s => pyStrip s
  | .arrv xs => pyStrip (xs.foldr (fun x acc => jPartContrib x ++ acc) [])
  | _ => []

/-- Loop of `extract_text_from_response_body` over the `choices` array:
returns the first choice whose `message` is a dict with non-empty coerced
content. -/
def extractChoices : List JVal → PyStr
  | [] => []
  | c :: rest =>
    match c with
    | .objv cf =>
      match dget cf (strv "message") with
      | some (.objv mf) =>
        let t := coerceJContent ((dget mf (strv "content")).getD .nullv)
        if t = [] then extractChoices rest else t
      | _ => extractChoices rest
    | _ => extractChoices rest

/-- Model of `extract_text_from_response_body` (generate_recipe_translations
lines 87-104). -/
def extractTextFromBody (fs : List (PyStr × JVal)) : PyStr :=
  match dget fs (strv "choices") with
  | some (.arrv cs) => extractChoices cs
  | _ => []

/-- Model of Python `int(s)` on a string, as used for a string-typed
`status_code`: optional surrounding whitespace, optional sign, digits;
`none` models the `ValueError` branch. -/
def digitsVal : PyStr → Option Nat
  | [] => none
  | [c] => if c.isDigit then some (c.toNat - 48) else none
  | c :: rest =>
    if c.isDigit then
      (digitsVal rest).map (fun n => (c.toNat - 48) * 10 ^ rest.length + n)
    else none

/-- Python `int(s)` for the status-code coercion (lines 415-419). -/
def pyParseInt (s : PyStr) : Option Int :=
  match pyStrip s with
  | '-' :: rest => (digitsVal rest).map (fun n => -(n : Int))
  | '+' :: rest => (digitsVal rest).map (fun n => (n : Int))
  | t => (digitsVal t).map (fun n => (n : Int))

/-- One content part of an SDK chat response (synchronous path): either a
plain string or a chunk object carrying optional `text` and `content`
string attributes. -/
inductive SPart
  | strP (s : PyStr)
  | objP (text : Option PyStr) (content : Option PyStr)

/-- The `content` attribute of an SDK chat message. -/
inductive SContent
  | noneC
  | strC (s : PyStr)
  | listC (ps : List SPart)
  | otherC

/-- An SDK chat message (synchronous path). -/
structure SMsg where
  content : SContent

/-- One SDK chat choice; `none` models a falsy/absent `message`. -/
structure SChoice where
  message : Option SMsg

/-- An SDK chat response; an empty `choices` list models the falsy
`getattr(response, "choices", None)` branch. -/
structure SResp where
  choices : List SChoice

/-- Contribution of one list part in `_coerce_message_content` on SDK
objects: a string part is appended as is; otherwise the `text` attribute is
used when it is a string, else the `content` attribute. -/
def partContrib : SPart → PyStr
  | .strP s => s
  | .objP (some t) _ => t
  | .objP none (some c) => c
  | .objP none none => []

/-- Model of `_coerce_message_content` on SDK objects (synchronous path). -/
def coerceSyncContent : SContent → PyStr
  | .strC s => pyStrip s
  | .listC ps => pyStrip (ps.foldr (fun p acc => partContrib p ++ acc) [])
  | _ => []

/-- Loop of `translate_field` over `response.choices`: first choice with a
truthy message and non-empty coerced content wins. -/
def firstChoiceText : List SChoice → PyStr
  | [] => []
  | c :: rest =>
    match c.message with
    | none => firstChoiceText rest
    | some m =>
      let t := coerceSyncContent m.content
      if t = [] then firstChoiceText rest else t

/-- Extraction performed by `translate_field` (lines 157-170) on one
synchronous response. -/
def translateFieldRes (r : SResp) : PyStr := firstChoiceText r.choices

/-- One synchronous translation request, identified by the three arguments
from which `build_translation_prompt` builds the prompt. -/
structure SyncReq where
  fieldName : PyStr
  srcText : PyStr
  code : PyStr
deriving DecidableEq

/-- The external chat service for the synchronous path: the n-th call either
raises (`.error`) or returns a response object. -/
abbrev SyncOracle := Nat → Except Unit SResp

/-- Model of `translate_field` (lines 147-170): one `client.chat.complete`
call; returns the extracted text (or `none` when the call raises), the
issued request, and the advanced call counter. -/
def translateField (oracle : SyncOracle) (k : Nat) (fieldName srcText code : PyStr) :
    Option PyStr × List SyncReq × Nat :=
  match oracle k with
  | .error _ => (none, [⟨fieldName, srcText, code⟩], k + 1)
  | .ok r => (some (translateFieldRes r), [⟨fieldName, srcText, code⟩], k + 1)

/-- A source recipe as parsed from its JSON file (`recipe.get(field, "")`
already applied). -/
structure Recipe where
  title : PyStr
  description : PyStr
  text : PyStr
deriving DecidableEq

/-- Running state of `translate_recipe`: the translations dict so far (or
`none` once a call has raised), the requests issued so far, and the call
counter. -/
abbrev TrState := Option (List (PyStr × PyStr)) × List SyncReq × Nat

/-- One `if source_field:`-guarded field translation inside the language loop
of `translate_recipe`: skipped when the source field is blank; on a raised
call the exception propagates (no further calls). -/
def trStep (oracle : SyncOracle) (cond : Bool) (fieldName src key : PyStr)
    (post : PyStr → PyStr) (code : PyStr) : TrState → TrState
  | (none, reqs, k) => (none, reqs, k)
  | (some d, reqs, k) =>
    if cond then
      match translateField oracle k fieldName src code with
      | (none, reqs', k') => (none, reqs ++ reqs', k')
      | (some t, reqs', k') => (some (dset d key (post t)), reqs ++ reqs', k')
    else (some d, reqs, k)

/-- Body of the language loop of `translate_recipe` (lines 187-202): lowers
the code, skips `"fr"`, then translates title, description and recipe text
in order, applying the fence normalisation to the text field. -/
def trLang (oracle : SyncOracle) (titleFr descFr textFr : PyStr) (st : TrState)
    (langCode : PyStr) : TrState :=
  let code := pyLower langCode
  if code = strv "fr" then st
  else
    trStep oracle (!textFr.isEmpty) (strv "recipe text") textFr
      (strv "text_" ++ code) stripFenceSync code
      (trStep oracle (!descFr.isEmpty) (strv "description") descFr
        (strv "description_" ++ code) id code
        (trStep oracle (!titleFr.isEmpty) (strv "title") titleFr
          (strv "title_" ++ code) id code st))

/-- Model of `translate_recipe` (lines 173-204): strips the three source
fields, raises (`none`) when all are blank, seeds the result dict with the
`_fr` fields, then runs the language loop. -/
def translateRecipe (oracle : SyncOracle) (k0 : Nat) (r : Recipe)
    (languages : List PyStr) : TrState :=
  let titleFr := pyStrip r.title
  let descFr := pyStrip r.description
  let textFr := pyStrip r.text
  if titleFr = [] ∧ descFr = [] ∧ textFr = [] then (none, [], k0)
  else
    let d0 := dset (dset (dset [] (strv "title_fr") titleFr)
      (strv "description_fr") descFr) (strv "text_fr") textFr
    languages.foldl (trLang oracle titleFr descFr textFr) (some d0, [], k0)

/-- An SDK chat message of the recipe-generation script: `content` is the
string attribute, `none` when absent or falsy in a way that skips the
choice. -/
structure GMsg where
  content : Option PyStr

/-- One chat choice of the recipe-generation script; `none` models a falsy
`getattr(choice, "message", None)`. -/
structure GChoice where
  message : Option GMsg

/-- A chat response of the recipe-generation script; an empty list models a
falsy `getattr(response, "choices", None)`. -/
structure GResp where
  choices : List GChoice

/-- Loop of `generate_recipe_text` over the choices: the first choice with a
truthy message and truthy (non-empty) content returns the stripped
content. -/
def gFirstChoice : List GChoice → PyStr
  | [] => []
  | c :: rest =>
    match c.message with
    | some m =>
      match m.content with
      | some s => if s = [] then gFirstChoice rest else pyStrip s
      | none => gFirstChoice rest
    | none => gFirstChoice rest

/-- Extraction performed by `generate_recipe_text`
(generate_recipes.mistral.py lines 48-63) on one response. -/
def genRecipeTextRes (r : GResp) : PyStr := gFirstChoice r.choices

/-- Terminal outcome of one item of the recipe-generation loop. -/
inductive GOutcome
  | saved (text : PyStr)
  | errored
deriving DecidableEq

/-- What one iteration of the generation loop did: how many chat calls it
made, its terminal outcome, and whether the output artifact is present
afterwards (writes modelled as atomic here; non-atomicity is treated
separately). -/
structure GItemRun where
  calls : Nat
  outcome : GOutcome
  persisted : Bool
deriving DecidableEq

/-- Model of the per-item body of `main` in generate_recipes.mistral.py
(lines 91-111) for a pending item: one generation call, one automatic retry
when the extracted text is blank, then the JSON artifact is written with
whatever text resulted; a raised call or a failed write reports an error for
the item and the run continues. -/
def processGenItem (gen : Nat → Except Unit GResp) (writeOk : Bool) : GItemRun :=
  match gen 0 with
  | .error _ => ⟨1, .errored, false⟩
  | .ok r0 =>
    let t0 := genRecipeTextRes r0
    if t0 = [] then
      match gen 1 with
      | .error _ => ⟨2, .errored, false⟩
      | .ok r1 =>
        let t1 := genRecipeTextRes r1
        if writeOk then ⟨2, .saved t1, true⟩ else ⟨2, .errored, false⟩
    else
      if writeOk then ⟨1, .saved t0, true⟩ else ⟨1, .errored, false⟩

/-- Terminal outcome of one worker of the image worker pool. -/
inductive WOutcome
  | missingId
  | skipped
  | okDone
  | failed (lastErr : Option PyStr)
deriving DecidableEq

/-- Result of one `_worker` call: chat calls made, outcome, and whether an
artifact is present at the item's output path afterwards. -/
structure WRun where
  calls : Nat
  outcome : WOutcome
  persisted : Bool
deriving DecidableEq

/-- The rid computation of `_worker` (generate_recipe_images.py line 115):
`str(row.get("id", "")).strip() or str(row.get("title", "")).strip()`. -/
def workerRid (idField titleField : PyStr) : PyStr :=
  if pyStrip idField = [] then pyStrip titleField else pyStrip idField

/-- The retry loop of `_worker` (lines 124-132): `att i` is the combined
outcome of the i-th `_gen_image_bytes` plus `_save_image` attempt (`.error`
carries `str(e)`). Returns the number of attempts made, the final
`last_err`, and whether an attempt succeeded; stops at the first success. -/
def wLoop (att : Nat → Except PyStr Unit) :
    Nat → Nat → Option PyStr → Nat × Option PyStr × Bool
  | 0, _, lastErr => (0, lastErr, false)
  | n + 1, i, lastErr =>
    match att i with
    | .ok _ => (1, lastErr, true)
    | .error e =>
      let r := wLoop att n (i + 1) (some e)
      (r.1 + 1, r.2.1, r.2.2)

/-- Model of `_worker` (generate_recipe_images.py lines 114-132): missing id
short-circuits; an existing artifact without `--overwrite` is skipped with
no call; otherwise up to `retries + 1` attempts are made and on exhaustion
the failure is recorded with the last error message (attempt failures leave
the file system as it was, writes being modelled as atomic here). -/
def workerRun (att : Nat → Except PyStr Unit) (rid : PyStr)
    (existsBefore overwrite : Bool) (retries : Nat) : WRun :=
  if rid = [] then ⟨0, .missingId, existsBefore⟩
  else if existsBefore && !overwrite then ⟨0, .skipped, existsBefore⟩
  else
    match wLoop att (retries + 1) 0 none with
    | (c, _, true) => ⟨c, .okDone, true⟩
    | (c, l, false) => ⟨c, .failed l, existsBefore⟩

/-- Correlation id, modelled as the pair (entry position, result key). The
source encodes it as the string `f"{position}|{result_key}"`; since the
position's decimal digits contain no `"|"`, that encoding is injective, so
the pair is a faithful stand-in. -/
abbrev Cid := Nat × PyStr

/-- One entry handed to `translate_recipes_batch` by `main`: its 1-based
position, file name, and the result of reading its recipe JSON (`none`
models a raised open/`json.load`). -/
structure EntryIn where
  position : Nat
  filename : PyStr
  readResult : Option Recipe
deriving DecidableEq

/-- A prepared entry, mirroring the mutable dict state the batch function
keeps per recipe: `translations`, `pending_keys` and `needs_fallback`. -/
structure PEntry where
  position : Nat
  filename : PyStr
  recipe : Recipe
  translations : List (PyStr × PyStr)
  pendingKeys : List PyStr
  needsFallback : Bool
deriving DecidableEq

/-- One emitted batch request line, keeping the correlation id together with
the arguments the prompt is built from (lines 271-294). -/
structure BatchLine where
  cid : Cid
  promptName : PyStr
  srcText : PyStr
  code : PyStr
deriving DecidableEq

/-- The `fields` list of `translate_recipes_batch` (lines 260-264). -/
def prepFieldSpecs (titleFr descFr textFr : PyStr) : List (PyStr × PyStr × PyStr) :=
  [(strv "title", strv "title", titleFr),
   (strv "description", strv "description", descFr),
   (strv "text", strv "recipe text", textFr)]

/-- Inner loop over `fields` for one language code (lines 271-299): skips
blank source fields, accumulates the pending key set and the request
lines. -/
def prepLangFields (pos : Nat) (code : PyStr) (fields : List (PyStr × PyStr × PyStr))
    (acc : List PyStr × List BatchLine) : List PyStr × List BatchLine :=
  fields.foldl (fun st f =>
    if f.2.2 = [] then st
    else
      let resultKey := f.1 ++ strv "_" ++ code
      (setAdd st.1 resultKey,
       st.2 ++ [⟨(pos, resultKey), f.2.1, f.2.2, code⟩])) acc

/-- Language loop of the preparation phase (lines 266-299): lowers each
code and skips `"fr"`. -/
def prepLangs (pos : Nat) (fields : List (PyStr × PyStr × PyStr))
    (languages : List PyStr) : List PyStr × List BatchLine :=
  languages.foldl (fun acc lc =>
    let code := pyLower lc
    if code = strv "fr" then acc
    else prepLangFields pos code fields acc) ([], [])

/-- Result of preparing one entry: either the preparation failed (unreadable
JSON, or all three fields blank — reported as an error, the entry is not
part of the batch), or a prepared entry together with its request lines. -/
inductive PrepResult
  | failedPrep
  | prepared (e : PEntry) (ls : List BatchLine)

/-- Preparation of one entry (lines 224-299). -/
def prepEntry (languages : List PyStr) (en : EntryIn) : PrepResult :=
  match en.readResult with
  | none => .failedPrep
  | some r =>
    let titleFr := pyStrip r.title
    let descFr := pyStrip r.description
    let textFr := pyStrip r.text
    if titleFr = [] ∧ descFr = [] ∧ textFr = [] then .failedPrep
    else
      let d0 := dset (dset (dset [] (strv "title_fr") titleFr)
        (strv "description_fr") descFr) (strv "text_fr") textFr
      let pl := prepLangs en.position (prepFieldSpecs titleFr descFr textFr) languages
      .prepared ⟨en.position, en.filename, r, d0, pl.1, false⟩ pl.2

/-- Output of the preparation loop over all entries. -/
structure PrepOut where
  prepFailed : List Nat
  prepared : List PEntry
  lines : List BatchLine

/-- One step of the preparation loop: a failed preparation is recorded (the
error is printed) and skipped, a successful one appends the entry and its
request lines. -/
def prepStep (languages : List PyStr) (acc : PrepOut) (en : EntryIn) : PrepOut :=
  match prepEntry languages en with
  | .failedPrep => { acc with prepFailed := acc.prepFailed ++ [en.position] }
  | .prepared e ls =>
      { acc with prepared := acc.prepared ++ [e], lines := acc.lines ++ ls }

/-- Preparation loop over all entries, in input order. -/
def prepareEntries (languages : List PyStr) (ins : List EntryIn) : PrepOut :=
  ins.foldl (prepStep languages) ⟨[], [], []⟩

/-- The `tasks` dict (line 296): maps each emitted correlation id to the
entry position and result key it belongs to. -/
def tasksOf (lines : List BatchLine) : List (Cid × (Nat × PyStr)) :=
  lines.foldl (fun m l => dset m l.cid (l.cid.1, l.cid.2)) []

/-- The `body` field of an output line's `response` dict: an embedded JSON
value, or a string whose second `json.loads` result is carried by the model
(`none` models a parse error, which sets `body = None`). -/
inductive BodyVal
  | jv (v : JVal)
  | strBody (parsed : Option JVal)

/-- The `response` field of an output line when it is a dict; `statusCode`
and `body` are its `.get` results. A non-dict or absent `response` is
modelled as `none` at the use site. -/
structure RespObj where
  statusCode : Option JVal
  body : Option BodyVal

/-- One line of the downloaded batch output artifact. `blank` is skipped
outright; `junk` fails `json.loads` and is skipped with a warning; `nonObj`
parses to a non-dict, so `payload.get` raises and resolution aborts into the
outer exception handler; `rcd` is a parsed JSON object with its `custom_id`
(`none` when absent or not a string), `error` and `response` fields. -/
inductive RawLine
  | blank
  | junk
  | nonObj
  | rcd (cid : Option Cid) (err : Option JVal) (resp : Option RespObj)

/-- Status-code coercion (lines 414-419): integers pass through, strings go
through `int(...)` with `ValueError` giving `None`, anything else is not an
int. -/
def coerceStatus : Option JVal → Option Int
  | some (.numv n) => some n
  | some (.strjv s) => pyParseInt s
  | _ => none

/-- Body normalisation (lines 413-431): a string body is re-parsed, then
anything that is not a dict is rejected. -/
def bodyDict : Option BodyVal → Option (List (PyStr × JVal))
  | some (.jv (.objv fs)) => some fs
  | some (.strBody (some (.objv fs))) => some fs
  | _ => none

/-- Classification of one processed output line. -/
inductive LClass
  | skip
  | abort
  | fbflag (cid : Cid)
  | assign (cid : Cid) (txt : PyStr)
deriving DecidableEq

/-- Tail of the per-line resolution once a usable body is required
(lines 432-454): missing body, or empty extracted text, flags the entry for
fallback; otherwise the text (fence-normalised for `text_*` keys) is
assigned. -/
def classifyBody (cid : Cid) (resultKey : PyStr) (b : Option BodyVal) : LClass :=
  match bodyDict b with
  | none => .fbflag cid
  | some fs =>
    let translated := extractTextFromBody fs
    if translated = [] then .fbflag cid
    else
      let t2 := if hasPref resultKey (strv "text_") then stripFenceBatch translated
                else translated
      .assign cid t2

/-- Per-line classification of the resolution loop (lines 375-454). The
branch order follows the source: parse failures and missing/non-string
custom ids are skipped, an unknown custom id is dropped, a present `error`
field or an HTTP status ≥ 400 or an unusable body or blank text flags the
entry for fallback, and only the remaining case assigns the translation. -/
def lineClass (tasks : List (Cid × (Nat × PyStr))) : RawLine → LClass
  | .blank => .skip
  | .junk => .skip
  | .nonObj => .abort
  | .rcd none _ _ => .skip
  | .rcd (some cid) errv resp =>
    match dget tasks cid with
    | none => .skip
    | some tk =>
      match errv with
      | some _ => .fbflag cid
      | none =>
        match resp with
        | none => .fbflag cid
        | some ro =>
          match coerceStatus ro.statusCode with
          | some n =>
            if n ≥ 400 then .fbflag cid else classifyBody cid tk.2 ro.body
          | none => classifyBody cid tk.2 ro.body

/-- The custom id a line contributes to `processed_ids` (added before the
`tasks` lookup, so ids that were never emitted are also recorded). -/
def lineCid : RawLine → Option Cid
  | .rcd c _ _ => c
  | _ => none

/-- State threaded through the resolution loop: the entry list plus the
`processed_ids` set, and ghost accounting of which correlation ids were
resolved as success and which as error. -/
structure ResolveState where
  entries : List PEntry
  processed : List Cid
  successes : List Cid
  errors : List Cid

/-- Mutation of the single entry with the given position (entries are shared
mutable dicts in the source; positions identify them). -/
def updEntry (pos : Nat) (f : PEntry → PEntry) (es : List PEntry) : List PEntry :=
  es.map (fun e => if e.position = pos then f e else e)

/-- Application of one line's classification to the resolution state. -/
def applyClass (st : ResolveState) : LClass → ResolveState
  | .skip => st
  | .abort => st
  | .fbflag cid =>
    { st with
      entries := updEntry cid.1 (fun e => { e with needsFallback := true }) st.entries,
      errors := setAdd st.errors cid }
  | .assign cid txt =>
    { st with
      entries := updEntry cid.1 (fun e =>
        { e with translations := dset e.translations cid.2 txt,
                 pendingKeys := setDiscard e.pendingKeys cid.2 }) st.entries,
      successes := setAdd st.successes cid }

/-- One iteration of the resolution loop; `.error` carries the state at the
moment the loop raises (a non-dict payload), which propagates to the outer
exception handler. -/
def lineStep (tasks : List (Cid × (Nat × PyStr))) (st : ResolveState) (rl : RawLine) :
    Except ResolveState ResolveState :=
  let st1 := match lineCid rl with
             | some cid => { st with processed := setAdd st.processed cid }
             | none => st
  if lineClass tasks rl = .abort then .error st1
  else .ok (applyClass st1 (lineClass tasks rl))

/-- The resolution loop over all downloaded lines (lines 375-454). -/
def resolveLines (tasks : List (Cid × (Nat × PyStr))) (st0 : ResolveState) :
    List RawLine → Except ResolveState ResolveState
  | [] => .ok st0
  | l :: rest =>
    match lineStep tasks st0 l with
    | .error s => .error s
    | .ok s => resolveLines tasks s rest

/-- Missing-correlation routing (lines 456-458): every emitted id with no
processed result flags its entry for fallback. -/
def routeMissing (tasks : List (Cid × (Nat × PyStr))) (processed : List Cid)
    (es : List PEntry) : List PEntry :=
  tasks.foldl (fun acc kv =>
    if kv.1 ∈ processed then acc
    else updEntry kv.2.1 (fun e => { e with needsFallback := true }) acc) es

/-- Pending-key routing (lines 460-462): any entry with a non-empty pending
key set is flagged for fallback. -/
def routePending (es : List PEntry) : List PEntry :=
  es.map (fun e => if e.pendingKeys = [] then e else { e with needsFallback := true })

/-- The exception handler's routing (lines 369-370 and 479-482): every
prepared entry is flagged for fallback. -/
def markAllFallback (es : List PEntry) : List PEntry :=
  es.map (fun e => { e with needsFallback := true })

/-- Terminal outcome of one work item. -/
inductive Outcome
  | succeeded
  | failed
deriving DecidableEq

/-- One recorded outcome: the entry position, whether it succeeded, and
whether its artifact is present afterwards (writes modelled as atomic here;
non-atomicity is treated separately). -/
structure ORec where
  pos : Nat
  outcome : Outcome
  persisted : Bool
deriving DecidableEq

/-- The batch-path write stage (lines 464-474): entries flagged for fallback
are skipped; for the rest the translations dict is serialised to the output
path, a raised write being reported as an error for that entry only. -/
def batchWriteStage (writeOk : Nat → Bool) (es : List PEntry) : List ORec :=
  (es.filter (fun e => !e.needsFallback)).map (fun e =>
    if writeOk e.position then ⟨e.position, .succeeded, true⟩
    else ⟨e.position, .failed, false⟩)

/-- Observable event of the fallback loop: a synchronous re-translation
attempt (with the recipe it was run on and its result, `none` when
`translate_recipe` raised), or the pacing `time.sleep(0.1)`. -/
inductive FEvent
  | attempt (pos : Nat) (r : Recipe) (result : Option (List (PyStr × PyStr)))
  | slept
deriving DecidableEq

/-- The fallback loop (lines 495-514) over the entries flagged for fallback:
one synchronous `translate_recipe` per entry in order; a successful save is
followed by the pacing sleep, while a raised translation or write skips it
via `continue`. Returns the event trace, the recorded outcomes and the
final call counter. -/
def fallbackStage (oracle : SyncOracle) (writeOk : Nat → Bool)
    (languages : List PyStr) : Nat → List PEntry → List FEvent × List ORec × Nat
  | k, [] => ([], [], k)
  | k, e :: rest =>
    match translateRecipe oracle k e.recipe languages with
    | (none, _, k') =>
      let r := fallbackStage oracle writeOk languages k' rest
      (.attempt e.position e.recipe none :: r.1,
       ⟨e.position, .failed, false⟩ :: r.2.1, r.2.2)
    | (some d, _, k') =>
      if writeOk e.position then
        let r := fallbackStage oracle writeOk languages k' rest
        (.attempt e.position e.recipe (some d) :: .slept :: r.1,
         ⟨e.position, .succeeded, true⟩ :: r.2.1, r.2.2)
      else
        let r := fallbackStage oracle writeOk languages k' rest
        (.attempt e.position e.recipe (some d) :: r.1,
         ⟨e.position, .failed, false⟩ :: r.2.1, r.2.2)

/-- Effective poll interval (line 345): non-positive intervals fall back to
five seconds. -/
def effInterval (p : ℚ) : ℚ := if p > 0 then p else 5

/-- Deadline construction (lines 341-343): a positive timeout sets the
deadline that many minutes ahead; zero (or negative) leaves it unset. -/
def mkDeadline (timeoutMinutes : ℚ) : Option ℚ :=
  if timeoutMinutes > 0 then some (timeoutMinutes * 60) else none

/-- Non-terminal job statuses, the `while` condition of the poll loop. -/
def nonTerminal (status : PyStr) : Bool :=
  status = strv "QUEUED" || status = strv "RUNNING"

/-- The poll loop (lines 347-355): `statuses k` is the job status visible at
the top of the k-th iteration (k sleeps of the interval have elapsed since
the deadline was set). Returns the exit iteration and whether the exit was
the deadline break (`true`) rather than a terminal status; `none` when the
iteration bound `fuel` is exhausted (the modelled run did not finish). -/
def pollExit (statuses : Nat → PyStr) (interval : ℚ) (deadline : Option ℚ) :
    Nat → Nat → Option (Nat × Bool)
  | 0, _ => none
  | fuel + 1, k =>
    if nonTerminal (statuses k) then
      match deadline with
      | some d =>
        if d ≤ (k : ℚ) * interval then some (k, true)
        else pollExit statuses interval deadline fuel (k + 1)
      | none => pollExit statuses interval deadline fuel (k + 1)
    else some (k, false)

/-- Remote job state as seen at one poll: its status string and, for the
resolution branch, the downloaded-and-split output artifact (`none` models a
falsy `output_file`). -/
structure JobState where
  status : PyStr
  output : Option (List RawLine)

/-- Environment of one batch run: which external effects succeed and what
the external service returns. -/
structure BatchEnv where
  uploadOk : Bool
  states : Nat → JobState
  downloadOk : Bool
  pollIntervalArg : ℚ
  timeoutMinutes : ℚ
  fuel : Nat
  writeOk : Nat → Bool
  oracle : SyncOracle

/-- Everything a batch run produced. -/
structure RunResult where
  prepFailed : List Nat
  entriesFinal : List PEntry
  batchRecs : List ORec
  fbEvents : List FEvent
  fbRecs : List ORec
  emitted : List Cid
  successes : List Cid
  errors : List Cid
  processed : List Cid
  aborted : Bool
deriving DecidableEq

/-- Composition of the whole of `translate_recipes_batch` (lines 207-514)
over the environment: preparation, the no-request early write, upload, poll,
the resolve-or-mark branch, the two routing loops, the batch write stage and
the fallback loop. `none` models only the poll-loop iteration bound running
out. -/
def runBatch (env : BatchEnv) (ins : List EntryIn) (languages : List PyStr) :
    Option RunResult :=
  let p := prepareEntries languages ins
  if p.prepared.isEmpty then
    some ⟨p.prepFailed, [], [], [], [], p.lines.map (·.cid), [], [], [], false⟩
  else if p.lines.isEmpty then
    some ⟨p.prepFailed, p.prepared,
      p.prepared.map (fun e =>
        if env.writeOk e.position then ⟨e.position, .succeeded, true⟩
        else ⟨e.position, .failed, false⟩),
      [], [], [], [], [], [], false⟩
  else
    let tasks := tasksOf p.lines
    let emitted := p.lines.map (·.cid)
    if !env.uploadOk then
      let es := markAllFallback p.prepared
      let fb := fallbackStage env.oracle env.writeOk languages 0
        (es.filter (·.needsFallback))
      some ⟨p.prepFailed, es, [], fb.1, fb.2.1, emitted, [], [], [], true⟩
    else
      match pollExit (fun k => (env.states k).status) (effInterval env.pollIntervalArg)
          (mkDeadline env.timeoutMinutes) env.fuel 0 with
      | none => none
      | some ex =>
        let job := env.states ex.1
        match (if job.status = strv "SUCCESS" then job.output else none) with
        | none =>
          let es := routePending (routeMissing tasks []
            (markAllFallback p.prepared))
          let recs := batchWriteStage env.writeOk es
          let fb := fallbackStage env.oracle env.writeOk languages 0
            (es.filter (·.needsFallback))
          some ⟨p.prepFailed, es, recs, fb.1, fb.2.1, emitted, [], [], [], false⟩
        | some outLines =>
          if !env.downloadOk then
            let es := markAllFallback p.prepared
            let fb := fallbackStage env.oracle env.writeOk languages 0
              (es.filter (·.needsFallback))
            some ⟨p.prepFailed, es, [], fb.1, fb.2.1, emitted, [], [], [], true⟩
          else
            match resolveLines tasks ⟨p.prepared, [], [], []⟩ outLines with
            | .error stE =>
              let es := markAllFallback stE.entries
              let fb := fallbackStage env.oracle env.writeOk languages 0
                (es.filter (·.needsFallback))
              some ⟨p.prepFailed, es, [], fb.1, fb.2.1, emitted,
                stE.successes, stE.errors, stE.processed, true⟩
            | .ok st =>
              let es := routePending (routeMissing tasks st.processed st.entries)
              let recs := batchWriteStage env.writeOk es
              let fb := fallbackStage env.oracle env.writeOk languages 0
                (es.filter (·.needsFallback))
              some ⟨p.prepFailed, es, recs, fb.1, fb.2.1, emitted,
                st.successes, st.errors, st.processed, false⟩

/-- All per-item outcome records of one run: preparation failures are
reported as item errors, then come the batch-write records and the fallback
records. -/
def outcomes (r : RunResult) : List ORec :=
  r.prepFailed.map (fun p => ⟨p, .failed, false⟩) ++ r.batchRecs ++ r.fbRecs

/-- Non-atomic write model of `open(path, "w")` followed by incremental
serialisation (`json.dump` / `f.write`, generate_recipes.mistral.py
lines 101-102, generate_recipe_translations.mistral.py lines 470-471 and
502-503, `_save_image` lines 109-111): opening truncates or creates the
file at the final path immediately, and an interruption after `i` flushed
characters leaves that prefix. Entry `i` of the list is the file system
after `i` characters. -/
def writeStatesSeq (fs : List (PyStr × PyStr)) (path content : PyStr) :
    List (List (PyStr × PyStr)) :=
  (List.range (content.length + 1)).map (fun i => dset fs path (content.take i))

/-- Resume check of the catalog (`os.path.exists(output_path)` /
`out_path.exists()`): a later run skips the item whenever something is at
the final path, regardless of its content. -/
def resumeSkips (fs : List (PyStr × PyStr)) (path : PyStr) : Bool :=
  (dget fs path).isSome

/-- Shape of every emitted result key: one of the three field name stems
followed by an underscore and a non-`"fr"` language code. -/
def goodKey (key : PyStr) : Prop :=
  ∃ code, code ≠ strv "fr" ∧
    (key = strv "title_" ++ code ∨ key = strv "description_" ++ code
      ∨ key = strv "text_" ++ code)

/-- The three French source fields of an entry's translations dict hold the
stripped source-recipe fields. -/
def frOK (e : PEntry) : Prop :=
  dget e.translations (strv "title_fr") = some (pyStrip e.recipe.title)
  ∧ dget e.translations (strv "description_fr") = some (pyStrip e.recipe.description)
  ∧ dget e.translations (strv "text_fr") = some (pyStrip e.recipe.text)

/-- Positions of a list of prepared entries, in order. -/
def posOf (es : List PEntry) : List Nat := es.map (·.position)

/-- Projection of a fallback event to the attempted position, `none` for the
pacing sleep. -/
def attemptPos : FEvent → Option Nat
  | .attempt p _ _ => some p
  | .slept => none

/-- Invariant on the running state of `translate_recipe`: whenever the
translations dict is still alive, it maps `key` to `v`. -/
def trKeyAt (key v : PyStr) : TrState → Prop
  | (od, _, _) => ∀ d, od = some d → dget d key = some v

/-- Invariant on the running state of `translate_recipe`: no issued request
targets the language code `"fr"`. -/
def trReqsOK : TrState → Prop
  | (_, reqs, _) => ∀ req ∈ reqs, req.code ≠ strv "fr"

/-- Concrete oracle for the C10 witness: every synchronous call returns a
response whose single choice carries the text "Hola". -/
def wOracleC10 : SyncOracle := fun _ => .ok ⟨[⟨some ⟨.strC (strv "Hola")⟩⟩]⟩

/-- Concrete recipe for the C10 witness. -/
def wRecipeC10 : Recipe := ⟨strv "Tarte", strv "Bonne", strv "Texte"⟩

/-- The dict `translate_recipe` produces on the witness inputs. -/
def wDictC10 : List (PyStr × PyStr) :=
  [(strv "title_fr", strv "Tarte"), (strv "description_fr", strv "Bonne"),
   (strv "text_fr", strv "Texte"), (strv "title_es", strv "Hola"),
   (strv "description_es", strv "Hola"), (strv "text_es", strv "Hola")]

/-- Concrete input list for the C10 witness batch run. -/
def wInsC10 : List EntryIn := [⟨1, strv "a.json", some wRecipeC10⟩]

/-- Concrete environment for the C10 witness batch run. -/
def wEnvC10 : BatchEnv :=
  ⟨true, fun _ => ⟨strv "SUCCESS", none⟩, true, 5, 0, 1, fun _ => true, wOracleC10⟩

/-- The prepared entry the C10 witness batch run ends with. -/
def wEntryC10 : PEntry :=
  ⟨1, strv "a.json", wRecipeC10,
   [(strv "title_fr", strv "Tarte"), (strv "description_fr", strv "Bonne"),
    (strv "text_fr", strv "Texte")], [], false⟩

/-- The run result of the C10 witness batch run (no target languages, so the
no-request early-write path is taken). -/
def wRunC10 : RunResult :=
  ⟨[], [wEntryC10], [⟨1, .succeeded, true⟩], [], [], [], [], [], [], false⟩

theorem dget_dset_self {κ α : Type} [DecidableEq κ] (m : List (κ × α)) (k : κ) (v : α) :
    dget (dset m k v) k = some v := by
  induction m with
  | nil => simp [dget, dset]
  | cons hd tl ih =>
    obtain ⟨k', v'⟩ := hd
    by_cases h : k' = k <;> simp [dget, dset, h, ih]

theorem dget_dset_ne {κ α : Type} [DecidableEq κ] (m : List (κ × α)) (k k' : κ) (v : α)
    (h : k ≠ k') : dget (dset m k v) k' = dget m k' := by
  induction m with
  | nil => simp [dget, dset, h]
  | cons hd tl ih =>
    obtain ⟨k₀, v₀⟩ := hd
    by_cases h₀ : k₀ = k
    · subst h₀
      simp [dget, dset, h]
    · simp [dget, dset, h₀, ih]

/-- C9: the code-fence normalisation applied to translated text drops the
first line exactly when the text starts with three backticks (with no
newline present, `find` returns `-1` and the slice keeps everything), drops
from the last newline onward exactly when the stripped text ends with three
backticks (with no newline present, `rfind` returns `-1` and `[:-1]` drops
only the single final character); on a fenced result with no newline such as
"```abc```" the opening fence stays and only the last character goes; and
the batch-path and synchronous-path normalisations are the same function. -/
theorem c9_fence_normalization :
    stripFenceSync = stripFenceBatch
    ∧ (∀ t, stripFenceSync t = fenceTailStep (fenceHeadStep t))
    ∧ (∀ t, hasPref t backtick3 = false → fenceHeadStep t = t)
    ∧ (∀ t i, hasPref t backtick3 = true → idxOfNL t = some i →
        fenceHeadStep t = t.drop (i + 1))
    ∧ (∀ t, idxOfNL t = none → fenceHeadStep t = t)
    ∧ (∀ t, pyEndsWith (pyStrip t) backtick3 = false → fenceTailStep t = t)
    ∧ (∀ t j, pyEndsWith (pyStrip t) backtick3 = true → rIdxOfNL t = some j →
        fenceTailStep t = t.take j)
    ∧ (∀ t, pyEndsWith (pyStrip t) backtick3 = true → rIdxOfNL t = none →
        fenceTailStep t = t.dropLast)
    ∧ stripFenceSync (strv "```abc```") = strv "```abc``" := by
  refine ⟨rfl, fun t => rfl, ?_, ?_, ?_, ?_, ?_, ?_, by decide⟩
  · intro t h
    simp [fenceHeadStep, h]
  · intro t i h hi
    simp [fenceHeadStep, h, hi]
  · intro t h
    cases hp : hasPref t backtick3 <;> simp [fenceHeadStep, hp, h]
  · intro t h
    simp [fenceTailStep, h]
  · intro t j h hj
    simp [fenceTailStep, h, hj]
  · intro t h hj
    simp [fenceTailStep, h, hj]

/-- Witness for C9: the characterisations applied at concrete texts. -/
theorem c9_fence_normalization_witness :
    fenceHeadStep (strv "```a\nb```") = (strv "```a\nb```").drop 5
    ∧ fenceTailStep (strv "b\n```") = (strv "b\n```").take 1
    ∧ fenceTailStep (strv "```abc```") = (strv "```abc```").dropLast
    ∧ fenceHeadStep (strv "xyz") = strv "xyz" := by
  refine ⟨?_, ?_, ?_, ?_⟩
  · exact c9_fence_normalization.2.2.2.1 (strv "```a\nb```") 4 (by decide) (by decide)
  · exact c9_fence_normalization.2.2.2.2.2.2.1 (strv "b\n```") 1 (by decide) (by decide)
  · exact c9_fence_normalization.2.2.2.2.2.2.2.1 (strv "```abc```") (by decide) (by decide)
  · exact c9_fence_normalization.2.2.1 (strv "xyz") (by decide)

/-- C8 counterexample: with every generation call returning a response with
no usable choice (blank extracted text), the recipe-generation loop retries
once and then writes the artifact with the blank text and records the item
as saved — refuting the claim that after a blank retry the item is recorded
as failed with no artifact written. -/
theorem c8_counterexample :
    processGenItem (fun _ => .ok ⟨[]⟩) true = ⟨2, .saved [], true⟩ := rfl

/-- C8 (amended): a blank synchronous generation result triggers exactly one
automatic retry in the recipe-generation script, after which the item is
written and recorded as saved with whatever text the retry produced, even
blank text; at most two calls are ever made per item; and the synchronous
translation path issues exactly one call per field, with no retry on a blank
result. -/
theorem c8_blank_retry :
    (∀ gen r0, gen 0 = .ok r0 → genRecipeTextRes r0 = [] →
      (processGenItem gen true).calls = 2
      ∧ (∀ r1, gen 1 = .ok r1 →
          processGenItem gen true = ⟨2, .saved (genRecipeTextRes r1), true⟩))
    ∧ (∀ gen r0, gen 0 = .ok r0 → genRecipeTextRes r0 ≠ [] →
        processGenItem gen true = ⟨1, .saved (genRecipeTextRes r0), true⟩)
    ∧ (∀ gen writeOk, (processGenItem gen writeOk).calls ≤ 2)
    ∧ (∀ oracle k fieldName srcText code,
        (translateField oracle k fieldName srcText code).2.2 = k + 1
        ∧ (translateField oracle k fieldName srcText code).2.1.length = 1) := by
  refine ⟨?_, ?_, ?_, ?_⟩
  · intro gen r0 h0 hb
    constructor
    · cases h1 : gen 1 <;> simp [processGenItem, h0, hb, h1]
    · intro r1 h1
      simp [processGenItem, h0, hb, h1]
  · intro gen r0 h0 hb
    simp [processGenItem, h0, hb]
  · intro gen writeOk
    unfold processGenItem
    cases h0 : gen 0 with
    | error e => simp
    | ok r0 =>
      by_cases hb : genRecipeTextRes r0 = []
      · cases h1 : gen 1 <;> cases writeOk <;> simp [hb]
      · cases writeOk <;> simp [hb]
  · intro oracle k fieldName srcText code
    cases h : oracle k <;> simp [translateField, h]

/-- Witness for C8's amended theorem: a concrete run where the first call is
blank and the retry succeeds. -/
theorem c8_blank_retry_witness :
    processGenItem
      (fun n => .ok (if n = 0 then ⟨[]⟩ else ⟨[⟨some ⟨some (strv "ok")⟩⟩]⟩)) true
      = ⟨2, .saved (strv "ok"), true⟩ := by
  have h := (c8_blank_retry.1
    (fun n => .ok (if n = 0 then ⟨[]⟩ else ⟨[⟨some ⟨some (strv "ok")⟩⟩]⟩))
    ⟨[]⟩ rfl rfl).2 ⟨[⟨some ⟨some (strv "ok")⟩⟩]⟩ rfl
  simpa using h

theorem wLoop_calls_le (att : Nat → Except PyStr Unit) :
    ∀ n i l, (wLoop att n i l).1 ≤ n := by
  intro n
  induction n with
  | zero => intro i l; simp [wLoop]
  | succ n ih =>
    intro i l
    unfold wLoop
    cases att i with
    | ok _ => simp
    | error e => simpa using ih (i + 1) (some e)

theorem wLoop_all_err (att : Nat → Except PyStr Unit) (es : Nat → PyStr)
    (h : ∀ m, att m = .error (es m)) :
    ∀ n i l, wLoop att (n + 1) i l = (n + 1, some (es (i + n)), false) := by
  intro n
  induction n with
  | zero => intro i l; simp [wLoop, h i]
  | succ n ih =>
    intro i l
    rw [show n + 1 + 1 = (n + 1) + 1 from rfl]
    unfold wLoop
    rw [h i]
    simp [ih (i + 1) (some (es i)), Nat.add_comm, Nat.add_left_comm]

theorem wLoop_succ_at (att : Nat → Except PyStr Unit) :
    ∀ n i l m, m < n → att (i + m) = .ok () →
      (∀ j, j < m → ∃ e, att (i + j) = .error e) →
      (wLoop att n i l).1 = m + 1 ∧ (wLoop att n i l).2.2 = true := by
  intro n
  induction n with
  | zero => intro i l m hm; omega
  | succ n ih =>
    intro i l m hm hok hprev
    cases m with
    | zero =>
      simp only [Nat.add_zero] at hok
      simp [wLoop, hok]
    | succ m' =>
      obtain ⟨e, he⟩ := hprev 0 (Nat.succ_pos m')
      simp only [Nat.add_zero] at he
      have hrec := ih (i + 1) (some e) m' (by omega)
        (by rw [show i + 1 + m' = i + (m' + 1) from by omega]; exact hok)
        (fun j hj => by
          obtain ⟨e', he'⟩ := hprev (j + 1) (by omega)
          exact ⟨e', by rw [show i + 1 + j = i + (j + 1) from by omega]; exact he'⟩)
      unfold wLoop
      rw [he]
      exact ⟨by simp [hrec.1], by simp [hrec.2]⟩

/-- C7: in the worker-pool path the retry loop makes at most `retries + 1`
calls, makes no further call once an attempt succeeds (a success at attempt
m after m failures gives exactly m+1 calls and a success outcome), an
always-failing call makes exactly `retries + 1` calls and records failure
with the message of the last attempt, and in particular with `retries = 2`
an always-failing item is recorded as failed after exactly 3 attempts. -/
theorem c7_bounded_retries :
    (∀ att rid ex ov retries, (workerRun att rid ex ov retries).calls ≤ retries + 1)
    ∧ (∀ att rid ov retries m, rid ≠ [] → m ≤ retries → att m = .ok () →
        (∀ j, j < m → ∃ e, att j = .error e) →
        (workerRun att rid false ov retries).calls = m + 1
        ∧ (workerRun att rid false ov retries).outcome = .okDone)
    ∧ (∀ (att : Nat → Except PyStr Unit) (es : Nat → PyStr) rid ex ov retries,
        rid ≠ [] → (ex && !ov) = false →
        (∀ n, att n = .error (es n)) →
        workerRun att rid ex ov retries
          = ⟨retries + 1, .failed (some (es retries)), ex⟩)
    ∧ (∀ (att : Nat → Except PyStr Unit) (es : Nat → PyStr) rid ov,
        rid ≠ [] → (∀ n, att n = .error (es n)) →
        workerRun att rid false ov 2 = ⟨3, .failed (some (es 2)), false⟩) := by
  have hall : ∀ (att : Nat → Except PyStr Unit) (es : Nat → PyStr) rid ex ov retries,
      rid ≠ [] → (ex && !ov) = false →
      (∀ n, att n = .error (es n)) →
      workerRun att rid ex ov retries
        = ⟨retries + 1, .failed (some (es retries)), ex⟩ := by
    intro att es rid ex ov retries hr hskip herr
    unfold workerRun
    rw [if_neg hr, if_neg (by simp [hskip])]
    rw [wLoop_all_err att es herr retries 0 none]
    simp
  refine ⟨?_, ?_, hall, ?_⟩
  · intro att rid ex ov retries
    unfold workerRun
    by_cases hr : rid = []
    · simp [hr]
    · rw [if_neg hr]
      by_cases hsk : (ex && !ov) = true
      · simp [hsk]
      · rw [if_neg hsk]
        have := wLoop_calls_le att (retries + 1) 0 none
        rcases hw : wLoop att (retries + 1) 0 none with ⟨c, l, s⟩
        rw [hw] at this
        cases s <;> simpa using this
  · intro att rid ov retries m hr hm hok hprev
    have h := wLoop_succ_at att (retries + 1) 0 none m (by omega)
      (by simpa using hok) (fun j hj => by simpa using hprev j hj)
    unfold workerRun
    rw [if_neg hr, if_neg (by simp)]
    rcases hw : wLoop att (retries + 1) 0 none with ⟨c, l, s⟩
    rw [hw] at h
    simp only at h
    rw [h.2]
    simp [h.1]
  · intro att es rid ov hr herr
    exact hall att es rid false ov 2 hr (by simp) herr

/-- Witness for C7: a call failing twice then succeeding, under retries = 2,
makes exactly 3 calls and succeeds; an always-failing call under retries = 2
fails after exactly 3 attempts with the last message. -/
theorem c7_bounded_retries_witness :
    ((workerRun
        (fun n => if n < 2 then .error (strv "boom") else .ok ()) (strv "r1")
        false false 2).calls = 3
      ∧ (workerRun
          (fun n => if n < 2 then .error (strv "boom") else .ok ()) (strv "r1")
          false false 2).outcome = .okDone)
    ∧ workerRun (fun _ => .error (strv "down")) (strv "r1") false false 2
        = ⟨3, .failed (some (strv "down")), false⟩ := by
  constructor
  · exact c7_bounded_retries.2.1
      (fun n => if n < 2 then .error (strv "boom") else .ok ()) (strv "r1")
      false 2 2 (by decide) (by decide) rfl
      (fun j hj => ⟨strv "boom", by interval_cases j <;> rfl⟩)
  · exact c7_bounded_retries.2.2.2 (fun _ => .error (strv "down"))
      (fun _ => strv "down") (strv "r1") false (by decide) (fun _ => rfl)

/-- C2 is violated by the code (code bug): each writer opens the final
output path directly with truncate-then-write, so the very first write state
(file opened, nothing flushed yet) already places an artifact at the final
path whose content differs from the full content, and the resume existence
check of a later run then skips the item as complete. -/
theorem c2_nonatomic_write_bug :
    (writeStatesSeq [] (strv "r1.json") (strv "title_fr: Tarte")).head?
      = some (dset ([] : List (PyStr × PyStr)) (strv "r1.json") ([] : PyStr))
    ∧ dget (dset ([] : List (PyStr × PyStr)) (strv "r1.json") ([] : PyStr))
        (strv "r1.json") = some ([] : PyStr)
    ∧ ([] : PyStr) ≠ strv "title_fr: Tarte"
    ∧ resumeSkips (dset ([] : List (PyStr × PyStr)) (strv "r1.json") ([] : PyStr))
        (strv "r1.json") = true := by
  refine ⟨?_, ?_, ?_, ?_⟩ <;> decide

theorem take_pref (pre rest : PyStr) : (pre ++ rest).take pre.length = pre :=
  List.take_left pre rest

theorem append_ne_of_take (pre code t : PyStr) (hne : pre ≠ t.take pre.length) :
    pre ++ code ≠ t := by
  intro h
  apply hne
  have h2 := congrArg (fun l => List.take pre.length l) h
  simpa [take_pref] using h2

theorem goodKey_ne_frKeys (key : PyStr) (h : goodKey key) :
    key ≠ strv "title_fr" ∧ key ≠ strv "description_fr" ∧ key ≠ strv "text_fr" := by
  obtain ⟨code, hc, hk⟩ := h
  have cancelT : ∀ pre : PyStr, pre ++ code = pre ++ strv "fr" → code = strv "fr" :=
    fun pre hh => List.append_cancel_left hh
  rcases hk with hk | hk | hk <;> subst hk
  · exact ⟨fun h => hc (cancelT _ (h.trans (by decide))),
      append_ne_of_take _ _ _ (by decide), append_ne_of_take _ _ _ (by decide)⟩
  · exact ⟨append_ne_of_take _ _ _ (by decide),
      fun h => hc (cancelT _ (h.trans (by decide))),
      append_ne_of_take _ _ _ (by decide)⟩
  · exact ⟨append_ne_of_take _ _ _ (by decide), append_ne_of_take _ _ _ (by decide),
      fun h => hc (cancelT _ (h.trans (by decide)))⟩

theorem trStep_keyAt (oracle : SyncOracle) (cond : Bool) (f s k0 post code key v)
    (hne : k0 ≠ key) :
    ∀ st, trKeyAt key v st → trKeyAt key v (trStep oracle cond f s k0 post code st) := by
  intro st hst
  rcases st with ⟨od, reqs, k⟩
  cases od with
  | none => simp only [trStep]; exact hst
  | some d =>
    by_cases hcond : cond = true
    · cases horacle : oracle k with
      | error e =>
        simp [trStep, hcond, translateField, horacle, trKeyAt]
      | ok r =>
        simp only [trStep, hcond, if_true, translateField, horacle]
        intro d' hd'
        cases hd'
        rw [dget_dset_ne _ k0 key _ hne]
        exact hst d rfl
    · have hcond' : cond = false := by revert hcond; cases cond <;> simp
      subst hcond'
      simpa [trStep, trKeyAt] using hst

theorem trStep_reqsOK (oracle : SyncOracle) (cond : Bool) (f s k0 post code)
    (hcode : code ≠ strv "fr") :
    ∀ st, trReqsOK st → trReqsOK (trStep oracle cond f s k0 post code st) := by
  intro st hst
  rcases st with ⟨od, reqs, k⟩
  cases od with
  | none => simpa [trStep, trReqsOK] using hst
  | some d =>
    by_cases hcond : cond = true
    · cases horacle : oracle k with
      | error e =>
        simp only [trStep, hcond, if_true, translateField, horacle, trReqsOK]
        intro req hreq
        rcases List.mem_append.mp hreq with h | h
        · exact hst req h
        · simp at h
          subst h
          exact hcode
      | ok r =>
        simp only [trStep, hcond, if_true, translateField, horacle, trReqsOK]
        intro req hreq
        rcases List.mem_append.mp hreq with h | h
        · exact hst req h
        · simp at h
          subst h
          exact hcode
    · have hcond' : cond = false := by revert hcond; cases cond <;> simp
      subst hcond'
      simpa [trStep, trReqsOK] using hst

theorem trLang_keyAt (oracle : SyncOracle) (t0 d0 x0 key v : PyStr)
    (hk : ∀ code, code ≠ strv "fr" →
      strv "title_" ++ code ≠ key ∧ strv "description_" ++ code ≠ key
        ∧ strv "text_" ++ code ≠ key) :
    ∀ st lc, trKeyAt key v st → trKeyAt key v (trLang oracle t0 d0 x0 st lc) := by
  intro st lc hst
  unfold trLang
  by_cases hfr : pyLower lc = strv "fr"
  · simpa [hfr] using hst
  · rw [if_neg hfr]
    exact trStep_keyAt oracle _ _ _ _ _ _ key v (hk (pyLower lc) hfr).2.2 _
      (trStep_keyAt oracle _ _ _ _ _ _ key v (hk (pyLower lc) hfr).2.1 _
        (trStep_keyAt oracle _ _ _ _ _ _ key v (hk (pyLower lc) hfr).1 _ hst))

theorem trLang_reqsOK (oracle : SyncOracle) (t0 d0 x0 : PyStr) :
    ∀ st lc, trReqsOK st → trReqsOK (trLang oracle t0 d0 x0 st lc) := by
  intro st lc hst
  unfold trLang
  by_cases hfr : pyLower lc = strv "fr"
  · simpa [hfr] using hst
  · rw [if_neg hfr]
    exact trStep_reqsOK oracle _ _ _ _ _ _ hfr _
      (trStep_reqsOK oracle _ _ _ _ _ _ hfr _
        (trStep_reqsOK oracle _ _ _ _ _ _ hfr _ hst))

theorem foldl_trLang_keyAt (oracle : SyncOracle) (t0 d0 x0 key v : PyStr)
    (hk : ∀ code, code ≠ strv "fr" →
      strv "title_" ++ code ≠ key ∧ strv "description_" ++ code ≠ key
        ∧ strv "text_" ++ code ≠ key) :
    ∀ (languages : List PyStr) st, trKeyAt key v st →
      trKeyAt key v (languages.foldl (trLang oracle t0 d0 x0) st) := by
  intro languages
  induction languages with
  | nil => intro st hst; simpa using hst
  | cons lc ls ih =>
    intro st hst
    exact ih _ (trLang_keyAt oracle t0 d0 x0 key v hk st lc hst)

theorem foldl_trLang_reqsOK (oracle : SyncOracle) (t0 d0 x0 : PyStr) :
    ∀ (languages : List PyStr) st, trReqsOK st →
      trReqsOK (languages.foldl (trLang oracle t0 d0 x0) st) := by
  intro languages
  induction languages with
  | nil => intro st hst; simpa using hst
  | cons lc ls ih =>
    intro st hst
    exact ih _ (trLang_reqsOK oracle t0 d0 x0 st lc hst)

theorem translateRecipe_reqs (oracle : SyncOracle) (k : Nat) (r : Recipe)
    (langs : List PyStr) :
    ∀ req ∈ (translateRecipe oracle k r langs).2.1, req.code ≠ strv "fr" := by
  have h0 : trReqsOK (translateRecipe oracle k r langs) := by
    simp only [translateRecipe]
    by_cases hall : pyStrip r.title = [] ∧ pyStrip r.description = [] ∧ pyStrip r.text = []
    · rw [if_pos hall]
      intro req hreq
      simp at hreq
    · rw [if_neg hall]
      exact foldl_trLang_reqsOK oracle _ _ _ langs _ (by intro req hreq; simp at hreq)
  exact h0

theorem translateRecipe_frFields (oracle : SyncOracle) (k : Nat) (r : Recipe)
    (langs : List PyStr) (d : List (PyStr × PyStr))
    (h : (translateRecipe oracle k r langs).1 = some d) :
    dget d (strv "title_fr") = some (pyStrip r.title)
    ∧ dget d (strv "description_fr") = some (pyStrip r.description)
    ∧ dget d (strv "text_fr") = some (pyStrip r.text) := by
  have hk1 : ∀ code, code ≠ strv "fr" →
      strv "title_" ++ code ≠ strv "title_fr"
      ∧ strv "description_" ++ code ≠ strv "title_fr"
      ∧ strv "text_" ++ code ≠ strv "title_fr" := by
    intro code hc
    exact ⟨(goodKey_ne_frKeys _ ⟨code, hc, Or.inl rfl⟩).1,
      (goodKey_ne_frKeys _ ⟨code, hc, Or.inr (Or.inl rfl)⟩).1,
      (goodKey_ne_frKeys _ ⟨code, hc, Or.inr (Or.inr rfl)⟩).1⟩
  have hk2 : ∀ code, code ≠ strv "fr" →
      strv "title_" ++ code ≠ strv "description_fr"
      ∧ strv "description_" ++ code ≠ strv "description_fr"
      ∧ strv "text_" ++ code ≠ strv "description_fr" := by
    intro code hc
    exact ⟨(goodKey_ne_frKeys _ ⟨code, hc, Or.inl rfl⟩).2.1,
      (goodKey_ne_frKeys _ ⟨code, hc, Or.inr (Or.inl rfl)⟩).2.1,
      (goodKey_ne_frKeys _ ⟨code, hc, Or.inr (Or.inr rfl)⟩).2.1⟩
  have hk3 : ∀ code, code ≠ strv "fr" →
      strv "title_" ++ code ≠ strv "text_fr"
      ∧ strv "description_" ++ code ≠ strv "text_fr"
      ∧ strv "text_" ++ code ≠ strv "text_fr" := by
    intro code hc
    exact ⟨(goodKey_ne_frKeys _ ⟨code, hc, Or.inl rfl⟩).2.2,
      (goodKey_ne_frKeys _ ⟨code, hc, Or.inr (Or.inl rfl)⟩).2.2,
      (goodKey_ne_frKeys _ ⟨code, hc, Or.inr (Or.inr rfl)⟩).2.2⟩
  simp only [translateRecipe] at h
  by_cases hall : pyStrip r.title = [] ∧ pyStrip r.description = [] ∧ pyStrip r.text = []
  · rw [if_pos hall] at h
    simp at h
  · rw [if_neg hall] at h
    have hbase1 : trKeyAt (strv "title_fr") (pyStrip r.title)
        ((some (dset (dset (dset ([] : List (PyStr × PyStr)) (strv "title_fr")
          (pyStrip r.title)) (strv "description_fr") (pyStrip r.description))
          (strv "text_fr") (pyStrip r.text)), ([] : List SyncReq), k) : TrState) := by
      intro d' hd'
      cases hd'
      rw [dget_dset_ne _ _ _ _ (by decide), dget_dset_ne _ _ _ _ (by decide),
        dget_dset_self]
    have hbase2 : trKeyAt (strv "description_fr") (pyStrip r.description)
        ((some (dset (dset (dset ([] : List (PyStr × PyStr)) (strv "title_fr")
          (pyStrip r.title)) (strv "description_fr") (pyStrip r.description))
          (strv "text_fr") (pyStrip r.text)), ([] : List SyncReq), k) : TrState) := by
      intro d' hd'
      cases hd'
      rw [dget_dset_ne _ _ _ _ (by decide), dget_dset_self]
    have hbase3 : trKeyAt (strv "text_fr") (pyStrip r.text)
        ((some (dset (dset (dset ([] : List (PyStr × PyStr)) (strv "title_fr")
          (pyStrip r.title)) (strv "description_fr") (pyStrip r.description))
          (strv "text_fr") (pyStrip r.text)), ([] : List SyncReq), k) : TrState) := by
      intro d' hd'
      cases hd'
      rw [dget_dset_self]
    exact ⟨foldl_trLang_keyAt oracle _ _ _ _ _ hk1 langs _ hbase1 d h,
      foldl_trLang_keyAt oracle _ _ _ _ _ hk2 langs _ hbase2 d h,
      foldl_trLang_keyAt oracle _ _ _ _ _ hk3 langs _ hbase3 d h⟩

theorem prepLangFields_good (pos : Nat) (code : PyStr) (hc : code ≠ strv "fr") :
    ∀ (fields : List (PyStr × PyStr × PyStr)) (acc : List PyStr × List BatchLine),
    (∀ f ∈ fields, f.1 = strv "title" ∨ f.1 = strv "description" ∨ f.1 = strv "text") →
    (∀ l ∈ acc.2, l.code ≠ strv "fr" ∧ goodKey l.cid.2) →
    ∀ l ∈ (prepLangFields pos code fields acc).2, l.code ≠ strv "fr" ∧ goodKey l.cid.2 := by
  intro fields
  induction fields with
  | nil =>
    intro acc _ hacc
    simpa [prepLangFields] using hacc
  | cons f fs ih =>
    intro acc hf hacc
    have hstep : prepLangFields pos code (f :: fs) acc
        = prepLangFields pos code fs
          (if f.2.2 = [] then acc
           else (setAdd acc.1 (f.1 ++ strv "_" ++ code),
             acc.2 ++ [⟨(pos, f.1 ++ strv "_" ++ code), f.2.1, f.2.2, code⟩])) := rfl
    rw [hstep]
    apply ih _ (fun g hg => hf g (List.mem_cons_of_mem f hg))
    by_cases hempty : f.2.2 = []
    · simpa [hempty] using hacc
    · rw [if_neg hempty]
      intro l hl
      rcases List.mem_append.mp hl with hml | hml
      · exact hacc l hml
      · simp at hml
        subst hml
        refine ⟨hc, ?_⟩
        rcases hf f (List.mem_cons_self f fs) with hf1 | hf1 | hf1 <;> rw [hf1]
        · exact ⟨code, hc, Or.inl rfl⟩
        · exact ⟨code, hc, Or.inr (Or.inl rfl)⟩
        · exact ⟨code, hc, Or.inr (Or.inr rfl)⟩

theorem prepLangs_good (pos : Nat) (fields : List (PyStr × PyStr × PyStr))
    (hf : ∀ f ∈ fields, f.1 = strv "title" ∨ f.1 = strv "description" ∨ f.1 = strv "text") :
    ∀ (languages : List PyStr) (acc : List PyStr × List BatchLine),
    (∀ l ∈ acc.2, l.code ≠ strv "fr" ∧ goodKey l.cid.2) →
    ∀ l ∈ (languages.foldl (fun acc lc =>
        let code := pyLower lc
        if code = strv "fr" then acc else prepLangFields pos code fields acc) acc).2,
      l.code ≠ strv "fr" ∧ goodKey l.cid.2 := by
  intro languages
  induction languages with
  | nil => intro acc hacc; simpa using hacc
  | cons lc ls ih =>
    intro acc hacc
    simp only [List.foldl_cons]
    apply ih
    by_cases hfr : pyLower lc = strv "fr"
    · simpa [hfr] using hacc
    · simpa [hfr] using prepLangFields_good pos (pyLower lc) hfr fields acc hf hacc

theorem prepEntry_props (languages : List PyStr) (en : EntryIn) (e : PEntry)
    (ls : List BatchLine) (h : prepEntry languages en = .prepared e ls) :
    (∀ l ∈ ls, l.code ≠ strv "fr" ∧ goodKey l.cid.2)
    ∧ frOK e ∧ e.position = en.position := by
  cases hr : en.readResult with
  | none => simp [prepEntry, hr] at h
  | some r =>
    simp only [prepEntry, hr] at h
    by_cases hall : pyStrip r.title = [] ∧ pyStrip r.description = [] ∧ pyStrip r.text = []
    · rw [if_pos hall] at h
      cases h
    · rw [if_neg hall] at h
      have he : e = ⟨en.position, en.filename, r,
          dset (dset (dset [] (strv "title_fr") (pyStrip r.title))
            (strv "description_fr") (pyStrip r.description)) (strv "text_fr")
            (pyStrip r.text),
          (prepLangs en.position (prepFieldSpecs (pyStrip r.title)
            (pyStrip r.description) (pyStrip r.text)) languages).1, false⟩
        ∧ ls = (prepLangs en.position (prepFieldSpecs (pyStrip r.title)
            (pyStrip r.description) (pyStrip r.text)) languages).2 := by
        cases h
        exact ⟨rfl, rfl⟩
      obtain ⟨he1, he2⟩ := he
      subst he1
      subst he2
      refine ⟨?_, ?_, rfl⟩
      · have hf : ∀ f ∈ prepFieldSpecs (pyStrip r.title) (pyStrip r.description)
            (pyStrip r.text), f.1 = strv "title" ∨ f.1 = strv "description"
            ∨ f.1 = strv "text" := by
          intro f hfm
          simp [prepFieldSpecs] at hfm
          rcases hfm with h1 | h1 | h1 <;> rw [h1] <;> simp
        exact prepLangs_good en.position _ hf languages ([], []) (by intro l hl; simp at hl)
      · refine ⟨?_, ?_, ?_⟩
        · rw [dget_dset_ne _ _ _ _ (by decide), dget_dset_ne _ _ _ _ (by decide),
            dget_dset_self]
        · rw [dget_dset_ne _ _ _ _ (by decide), dget_dset_self]
        · rw [dget_dset_self]

theorem prepFold_good (languages : List PyStr) :
    ∀ (ins : List EntryIn) (acc : PrepOut),
      (∀ l ∈ acc.lines, l.code ≠ strv "fr" ∧ goodKey l.cid.2) →
      (∀ e ∈ acc.prepared, frOK e) →
      (∀ l ∈ (ins.foldl (prepStep languages) acc).lines,
          l.code ≠ strv "fr" ∧ goodKey l.cid.2)
      ∧ (∀ e ∈ (ins.foldl (prepStep languages) acc).prepared, frOK e) := by
  intro ins
  induction ins with
  | nil => intro acc h1 h2; exact ⟨h1, h2⟩
  | cons en ins ih =>
    intro acc h1 h2
    simp only [List.foldl_cons]
    apply ih
    · cases hp : prepEntry languages en with
      | failedPrep => simpa [prepStep, hp] using h1
      | prepared e ls =>
        simp only [prepStep, hp]
        intro l hl
        rcases List.mem_append.mp hl with hml | hml
        · exact h1 l hml
        · exact (prepEntry_props languages en e ls hp).1 l hml
    · cases hp : prepEntry languages en with
      | failedPrep => simpa [prepStep, hp] using h2
      | prepared e ls =>
        simp only [prepStep, hp]
        intro e' he'
        rcases List.mem_append.mp he' with hme | hme
        · exact h2 e' hme
        · simp at hme
          rw [hme]
          exact (prepEntry_props languages en e ls hp).2.1

theorem prepareEntries_good (languages : List PyStr) (ins : List EntryIn) :
    (∀ l ∈ (prepareEntries languages ins).lines,
        l.code ≠ strv "fr" ∧ goodKey l.cid.2)
    ∧ (∀ e ∈ (prepareEntries languages ins).prepared, frOK e) := by
  exact prepFold_good languages ins ⟨[], [], []⟩ (by intro l hl; simp at hl)
    (by intro e he; simp at he)

theorem prepFold_count (languages : List PyStr) :
    ∀ (ins : List EntryIn) (acc : PrepOut) (p : Nat),
      ((ins.foldl (prepStep languages) acc).prepFailed).count p
        + (posOf (ins.foldl (prepStep languages) acc).prepared).count p
      = acc.prepFailed.count p + (posOf acc.prepared).count p
        + (ins.map (·.position)).count p := by
  intro ins
  induction ins with
  | nil => intro acc p; simp
  | cons en ins ih =>
    intro acc p
    simp only [List.foldl_cons]
    rw [ih]
    cases hp : prepEntry languages en with
    | failedPrep =>
      simp only [prepStep, hp]
      simp [List.count_append, List.count_cons]
      omega
    | prepared e ls =>
      have hpos : e.position = en.position := (prepEntry_props languages en e ls hp).2.2
      simp only [prepStep, hp]
      simp [posOf, List.count_append, List.count_cons, hpos]
      omega

theorem dget_tasksOf_aux :
    ∀ (lines : List BatchLine) (m : List (Cid × (Nat × PyStr))) (cid : Cid),
      dget (lines.foldl (fun m l => dset m l.cid (l.cid.1, l.cid.2)) m) cid
        = if cid ∈ lines.map (·.cid) then some (cid.1, cid.2) else dget m cid := by
  intro lines
  induction lines with
  | nil => intro m cid; simp
  | cons l ls ih =>
    intro m cid
    simp only [List.foldl_cons]
    rw [ih]
    by_cases hmem : cid ∈ ls.map (·.cid)
    · simp [hmem]
    · by_cases hc : cid = l.cid
      · subst hc
        simp [hmem, dget_dset_self]
      · rw [if_neg hmem, dget_dset_ne _ _ _ _ (fun h => hc h.symm)]
        simp only [List.map_cons, List.mem_cons]
        rw [if_neg (by push_neg; exact ⟨hc, fun h => hmem h⟩)]

theorem dget_tasksOf (lines : List BatchLine) (cid : Cid) :
    dget (tasksOf lines) cid
      = if cid ∈ lines.map (·.cid) then some (cid.1, cid.2) else none := by
  have h := dget_tasksOf_aux lines [] cid
  simpa [tasksOf, dget] using h

theorem classifyBody_cases (c : Cid) (k0 : PyStr) (b : Option BodyVal) :
    (∃ t, classifyBody c k0 b = .assign c t) ∨ classifyBody c k0 b = .fbflag c := by
  unfold classifyBody
  cases bodyDict b with
  | none => exact Or.inr rfl
  | some fs =>
    by_cases hempty : extractTextFromBody fs = []
    · exact Or.inr (by simp [hempty])
    · exact Or.inl ⟨if hasPref k0 (strv "text_") = true then
        stripFenceBatch (extractTextFromBody fs) else extractTextFromBody fs,
        by simp [hempty]⟩

theorem lineClass_shape (tasks : List (Cid × (Nat × PyStr))) (rl : RawLine) :
    lineClass tasks rl = .skip ∨ lineClass tasks rl = .abort
    ∨ (∃ cid tk, lineCid rl = some cid ∧ dget tasks cid = some tk
        ∧ (lineClass tasks rl = .fbflag cid
            ∨ ∃ t, lineClass tasks rl = .assign cid t)) := by
  cases rl with
  | blank => exact Or.inl rfl
  | junk => exact Or.inl rfl
  | nonObj => exact Or.inr (Or.inl rfl)
  | rcd c errv resp =>
    cases c with
    | none => exact Or.inl rfl
    | some cid0 =>
      cases hdg : dget tasks cid0 with
      | none => exact Or.inl (by simp [lineClass, hdg])
      | some tk =>
        refine Or.inr (Or.inr ⟨cid0, tk, rfl, hdg, ?_⟩)
        cases errv with
        | some ev => exact Or.inl (by simp [lineClass, hdg])
        | none =>
          cases resp with
          | none => exact Or.inl (by simp [lineClass, hdg])
          | some ro =>
            have hcb : lineClass tasks (.rcd (some cid0) none (some ro))
                = (match coerceStatus ro.statusCode with
                   | some n => if n ≥ 400 then LClass.fbflag cid0
                       else classifyBody cid0 tk.2 ro.body
                   | none => classifyBody cid0 tk.2 ro.body) := by
              simp [lineClass, hdg]
            rw [hcb]
            cases coerceStatus ro.statusCode with
            | some n =>
              by_cases hn : n ≥ 400
              · exact Or.inl (by simp [hn])
              · simp only [hn, if_false]
                rcases classifyBody_cases cid0 tk.2 ro.body with ⟨t, ht⟩ | hf
                · exact Or.inr ⟨t, ht⟩
                · exact Or.inl hf
            | none =>
              rcases classifyBody_cases cid0 tk.2 ro.body with ⟨t, ht⟩ | hf
              · exact Or.inr ⟨t, ht⟩
              · exact Or.inl hf

theorem updEntry_pres {P : PEntry → Prop} (pos : Nat) (f : PEntry → PEntry)
    (hf : ∀ e, P e → P (f e)) (es : List PEntry) (hall : ∀ e ∈ es, P e) :
    ∀ e ∈ updEntry pos f es, P e := by
  intro e he
  rcases List.mem_map.mp he with ⟨e0, he0, hfe⟩
  by_cases hpos : e0.position = pos
  · rw [← hfe]
    simp only [hpos, if_true]
    exact hf e0 (hall e0 he0)
  · rw [← hfe]
    simp only [hpos, if_false]
    exact hall e0 he0

theorem frOK_set_nf (e : PEntry) (h : frOK e) : frOK { e with needsFallback := true } := h

theorem frOK_assign (key txt : PyStr) (hg : goodKey key) (e : PEntry) (h : frOK e) :
    frOK { e with translations := dset e.translations key txt,
                  pendingKeys := setDiscard e.pendingKeys key } := by
  obtain ⟨h1, h2, h3⟩ := goodKey_ne_frKeys key hg
  refine ⟨?_, ?_, ?_⟩
  · show dget (dset e.translations key txt) (strv "title_fr") = _
    rw [dget_dset_ne _ _ _ _ h1]
    exact h.1
  · show dget (dset e.translations key txt) (strv "description_fr") = _
    rw [dget_dset_ne _ _ _ _ h2]
    exact h.2.1
  · show dget (dset e.translations key txt) (strv "text_fr") = _
    rw [dget_dset_ne _ _ _ _ h3]
    exact h.2.2

theorem applyClass_frOK (st : ResolveState) (c : LClass)
    (hc : ∀ cid txt, c = .assign cid txt → goodKey cid.2)
    (hall : ∀ e ∈ st.entries, frOK e) :
    ∀ e ∈ (applyClass st c).entries, frOK e := by
  cases c with
  | skip => exact hall
  | abort => exact hall
  | fbflag cid => exact updEntry_pres _ _ frOK_set_nf _ hall
  | assign cid txt =>
    exact updEntry_pres _ _ (frOK_assign cid.2 txt (hc cid txt rfl)) _ hall

theorem lineStep_frOK (tasks : List (Cid × (Nat × PyStr)))
    (hgood : ∀ cid tk, dget tasks cid = some tk → goodKey cid.2)
    (st : ResolveState) (rl : RawLine) (st' : ResolveState)
    (hres : lineStep tasks st rl = .ok st' ∨ lineStep tasks st rl = .error st')
    (hall : ∀ e ∈ st.entries, frOK e) : ∀ e ∈ st'.entries, frOK e := by
  have hcls : ∀ cid txt, lineClass tasks rl = .assign cid txt → goodKey cid.2 := by
    intro cid txt hassign
    rcases lineClass_shape tasks rl with hs | hs | ⟨cid0, tk, _, hdg, hform⟩
    · rw [hs] at hassign; cases hassign
    · rw [hs] at hassign; cases hassign
    · rcases hform with hf | ⟨t, hf⟩
      · rw [hf] at hassign; cases hassign
      · rw [hf] at hassign
        cases hassign
        exact hgood _ tk hdg
  have hall1 : ∀ e ∈ (match lineCid rl with
      | some cid => { st with processed := setAdd st.processed cid }
      | none => st).entries, frOK e := by
    cases lineCid rl <;> simpa using hall
  rcases hres with h | h <;> simp only [lineStep] at h <;>
    by_cases hab : lineClass tasks rl = LClass.abort
  · rw [if_pos hab] at h
    cases h
  · rw [if_neg hab] at h
    cases h
    exact applyClass_frOK _ _ hcls hall1
  · rw [if_pos hab] at h
    cases h
    exact hall1
  · rw [if_neg hab] at h
    cases h

theorem resolve_frOK (tasks : List (Cid × (Nat × PyStr)))
    (hgood : ∀ cid tk, dget tasks cid = some tk → goodKey cid.2) :
    ∀ (lines : List RawLine) (st0 st' : ResolveState),
      (resolveLines tasks st0 lines = .ok st'
        ∨ resolveLines tasks st0 lines = .error st') →
      (∀ e ∈ st0.entries, frOK e) → ∀ e ∈ st'.entries, frOK e := by
  intro lines
  induction lines with
  | nil =>
    intro st0 st' hres hall
    rcases hres with h | h
    · cases h; exact hall
    · cases h
  | cons l ls ih =>
    intro st0 st' hres hall
    cases hstep : lineStep tasks st0 l with
    | error s =>
      have hs : ∀ e ∈ s.entries, frOK e :=
        lineStep_frOK tasks hgood st0 l s (Or.inr hstep) hall
      rcases hres with h | h <;> simp only [resolveLines, hstep] at h
      · exact absurd h (by simp)
      · injection h with h2
        rw [← h2]
        exact hs
    | ok s =>
      have hs : ∀ e ∈ s.entries, frOK e :=
        lineStep_frOK tasks hgood st0 l s (Or.inl hstep) hall
      rcases hres with h | h <;> simp only [resolveLines, hstep] at h
      · exact ih s st' (Or.inl h) hs
      · exact ih s st' (Or.inr h) hs

theorem routeMissing_pres {P : PEntry → Prop}
    (hnf : ∀ e, P e → P { e with needsFallback := true }) :
    ∀ (tasks : List (Cid × (Nat × PyStr))) (processed : List Cid) (es : List PEntry),
      (∀ e ∈ es, P e) → ∀ e ∈ routeMissing tasks processed es, P e := by
  intro tasks
  induction tasks with
  | nil => intro processed es h; simpa [routeMissing] using h
  | cons kv tks ih =>
    intro processed es h
    have hstep : routeMissing (kv :: tks) processed es
        = routeMissing tks processed
          (if kv.1 ∈ processed then es
           else updEntry kv.2.1 (fun e => { e with needsFallback := true }) es) := rfl
    rw [hstep]
    by_cases hmem : kv.1 ∈ processed
    · rw [if_pos hmem]
      exact ih processed es h
    · rw [if_neg hmem]
      exact ih processed _ (updEntry_pres _ _ hnf es h)

theorem routePending_pres {P : PEntry → Prop}
    (hnf : ∀ e, P e → P { e with needsFallback := true }) (es : List PEntry)
    (h : ∀ e ∈ es, P e) : ∀ e ∈ routePending es, P e := by
  intro e he
  rcases List.mem_map.mp he with ⟨e0, he0, hfe⟩
  by_cases hp : e0.pendingKeys = []
  · rw [← hfe]
    simp only [hp, if_true]
    exact h e0 he0
  · rw [← hfe]
    simp only [hp, if_false]
    exact hnf e0 (h e0 he0)

theorem markAllFallback_pres {P : PEntry → Prop}
    (hnf : ∀ e, P e → P { e with needsFallback := true }) (es : List PEntry)
    (h : ∀ e ∈ es, P e) : ∀ e ∈ markAllFallback es, P e := by
  intro e he
  rcases List.mem_map.mp he with ⟨e0, he0, hfe⟩
  rw [← hfe]
  exact hnf e0 (h e0 he0)

theorem tasksOf_goodKey (languages : List PyStr) (ins : List EntryIn) :
    ∀ cid tk, dget (tasksOf (prepareEntries languages ins).lines) cid = some tk →
      goodKey cid.2 := by
  intro cid tk h
  rw [dget_tasksOf] at h
  by_cases hm : cid ∈ (prepareEntries languages ins).lines.map (·.cid)
  · rcases List.mem_map.mp hm with ⟨l, hl, hcid⟩
    rw [← hcid]
    exact ((prepareEntries_good languages ins).1 l hl).2
  · rw [if_neg hm] at h
    cases h

theorem runBatch_frOK (env : BatchEnv) (ins : List EntryIn) (languages : List PyStr)
    (r : RunResult) (hr : runBatch env ins languages = some r) :
    ∀ e ∈ r.entriesFinal, frOK e := by
  have hprep := (prepareEntries_good languages ins).2
  have hgood := tasksOf_goodKey languages ins
  simp only [runBatch] at hr
  by_cases h1 : (prepareEntries languages ins).prepared.isEmpty
  · rw [if_pos h1] at hr
    injection hr with hr2
    rw [← hr2]
    intro e he
    simp at he
  · rw [if_neg h1] at hr
    by_cases h2 : (prepareEntries languages ins).lines.isEmpty
    · rw [if_pos h2] at hr
      injection hr with hr2
      rw [← hr2]
      exact hprep
    · rw [if_neg h2] at hr
      cases hup : env.uploadOk with
      | false =>
        simp only [hup, Bool.not_false, if_true] at hr
        injection hr with hr2
        rw [← hr2]
        exact markAllFallback_pres frOK_set_nf _ hprep
      | true =>
        simp only [hup, Bool.not_true, if_false] at hr
        cases hpoll : pollExit (fun k => (env.states k).status)
            (effInterval env.pollIntervalArg) (mkDeadline env.timeoutMinutes)
            env.fuel 0 with
        | none => rw [hpoll] at hr; cases hr
        | some ex =>
          rw [hpoll] at hr
          simp only [] at hr
          cases hout : (if (env.states ex.1).status = strv "SUCCESS"
              then (env.states ex.1).output else none) with
          | none =>
            rw [hout] at hr
            injection hr with hr2
            rw [← hr2]
            exact routePending_pres frOK_set_nf _
              (routeMissing_pres frOK_set_nf _ _ _
                (markAllFallback_pres frOK_set_nf _ hprep))
          | some outLines =>
            rw [hout] at hr
            cases hdl : env.downloadOk with
            | false =>
              simp only [hdl, Bool.not_false, if_true] at hr
              injection hr with hr2
              rw [← hr2]
              exact markAllFallback_pres frOK_set_nf _ hprep
            | true =>
              simp only [hdl, Bool.not_true, if_false] at hr
              cases hres : resolveLines (tasksOf (prepareEntries languages ins).lines)
                  ⟨(prepareEntries languages ins).prepared, [], [], []⟩ outLines with
              | error stE =>
                rw [hres] at hr
                injection hr with hr2
                rw [← hr2]
                exact markAllFallback_pres frOK_set_nf _
                  (resolve_frOK _ hgood outLines _ stE (Or.inr hres) hprep)
              | ok st =>
                rw [hres] at hr
                injection hr with hr2
                rw [← hr2]
                exact routePending_pres frOK_set_nf _
                  (routeMissing_pres frOK_set_nf _ _ _
                    (resolve_frOK _ hgood outLines _ st (Or.inl hres) hprep))

/-- C10: no translation request is ever issued for the language code `"fr"`
— neither a synchronous call of `translate_recipe` nor a batch request line —
and the output fields `title_fr`, `description_fr` and `text_fr` always hold
the stripped source-recipe fields unchanged: in the synchronous result dict
whenever `translate_recipe` returns, and in every entry's translations dict
throughout the batch run, whatever the job returns or fails to return. -/
theorem c10_no_french_requests :
    (∀ oracle k r langs req, req ∈ (translateRecipe oracle k r langs).2.1 →
        req.code ≠ strv "fr")
    ∧ (∀ oracle k r langs d, (translateRecipe oracle k r langs).1 = some d →
        dget d (strv "title_fr") = some (pyStrip r.title)
        ∧ dget d (strv "description_fr") = some (pyStrip r.description)
        ∧ dget d (strv "text_fr") = some (pyStrip r.text))
    ∧ (∀ langs ins l, l ∈ (prepareEntries langs ins).lines → l.code ≠ strv "fr")
    ∧ (∀ env ins langs r, runBatch env ins langs = some r →
        ∀ e ∈ r.entriesFinal, frOK e) := by
  refine ⟨?_, ?_, ?_, ?_⟩
  · intro oracle k r langs req hreq
    exact translateRecipe_reqs oracle k r langs req hreq
  · intro oracle k r langs d h
    exact translateRecipe_frFields oracle k r langs d h
  · intro langs ins l hl
    exact ((prepareEntries_good langs ins).1 l hl).1
  · intro env ins langs r hr
    exact runBatch_frOK env ins langs r hr

/-- Witness for C10: the theorem applied at a concrete oracle, recipe,
language list and batch environment. -/
theorem c10_no_french_requests_witness :
    ((⟨strv "title", strv "Tarte", strv "es"⟩ : SyncReq).code ≠ strv "fr")
    ∧ dget wDictC10 (strv "title_fr") = some (pyStrip wRecipeC10.title)
    ∧ dget wDictC10 (strv "description_fr") = some (pyStrip wRecipeC10.description)
    ∧ dget wDictC10 (strv "text_fr") = some (pyStrip wRecipeC10.text)
    ∧ dget wEntryC10.translations (strv "title_fr") = some (pyStrip wRecipeC10.title) := by
  have h1 := c10_no_french_requests.1 wOracleC10 0 wRecipeC10 [strv "es"]
    ⟨strv "title", strv "Tarte", strv "es"⟩ (by decide)
  have h2 := c10_no_french_requests.2.1 wOracleC10 0 wRecipeC10 [strv "es"]
    wDictC10 (by decide)
  have h4 := c10_no_french_requests.2.2.2 wEnvC10 wInsC10 [] wRunC10 (by decide)
  exact ⟨h1, h2.1, h2.2.1, h2.2.2, (h4 wEntryC10 (by decide)).1⟩

theorem pollExit_no_deadline (statuses : Nat → PyStr) (interval : ℚ) :
    ∀ (fuel k0 k : Nat) (b : Bool),
      pollExit statuses interval none fuel k0 = some (k, b) →
      b = false ∧ nonTerminal (statuses k) = false ∧ k0 ≤ k
      ∧ (∀ j, k0 ≤ j → j < k → nonTerminal (statuses j) = true) := by
  intro fuel
  induction fuel with
  | zero => intro k0 k b h; cases h
  | succ fuel ih =>
    intro k0 k b h
    rw [pollExit] at h
    by_cases hnt : nonTerminal (statuses k0) = true
    · rw [if_pos hnt] at h
      obtain ⟨hb, hterm, hle, hall⟩ := ih (k0 + 1) k b h
      refine ⟨hb, hterm, by omega, ?_⟩
      intro j hj1 hj2
      by_cases hj : j = k0
      · rw [hj]; exact hnt
      · exact hall j (by omega) hj2
    · rw [if_neg hnt] at h
      injection h with h2
      injection h2 with h3 h4
      subst h3
      subst h4
      exact ⟨rfl, by revert hnt; cases nonTerminal (statuses k0) <;> simp,
        le_refl _, fun j h1 h2 => absurd (Nat.lt_of_le_of_lt h1 h2) (Nat.lt_irrefl _)⟩

theorem pollExit_timedOut (statuses : Nat → PyStr) (interval : ℚ) (d : ℚ) :
    ∀ (fuel k0 k : Nat),
      pollExit statuses interval (some d) fuel k0 = some (k, true) →
      nonTerminal (statuses k) = true ∧ d ≤ (k : ℚ) * interval := by
  intro fuel
  induction fuel with
  | zero => intro k0 k h; cases h
  | succ fuel ih =>
    intro k0 k h
    rw [pollExit] at h
    by_cases hnt : nonTerminal (statuses k0) = true
    · rw [if_pos hnt] at h
      by_cases hd : d ≤ (k0 : ℚ) * interval
      · rw [if_pos hd] at h
        injection h with h2
        injection h2 with h3 h4
        subst h3
        exact ⟨hnt, hd⟩
      · rw [if_neg hd] at h
        exact ih (k0 + 1) k h
    · rw [if_neg hnt] at h
      injection h with h2
      injection h2 with h3 h4
      cases h4

theorem pollExit_timeout_exists (statuses : Nat → PyStr) (interval : ℚ) (d : ℚ)
    (hnt : ∀ j, nonTerminal (statuses j) = true) :
    ∀ (n k0 : Nat), d ≤ ((k0 + n : Nat) : ℚ) * interval →
      ∃ k, pollExit statuses interval (some d) (n + 1) k0 = some (k, true) := by
  intro n
  induction n with
  | zero =>
    intro k0 hd
    refine ⟨k0, ?_⟩
    rw [pollExit, if_pos (hnt k0)]
    rw [if_pos (by simpa using hd)]
  | succ n ih =>
    intro k0 hd
    by_cases hk0 : d ≤ (k0 : ℚ) * interval
    · refine ⟨k0, ?_⟩
      rw [pollExit, if_pos (hnt k0)]
      rw [if_pos hk0]
    · have hrec := ih (k0 + 1) (by
        have : ((k0 + 1 + n : Nat) : ℚ) = ((k0 + (n + 1) : Nat) : ℚ) := by
          norm_num
          ring
        rw [this]
        exact hd)
      obtain ⟨k, hk⟩ := hrec
      refine ⟨k, ?_⟩
      rw [pollExit, if_pos (hnt k0)]
      rw [if_neg hk0]
      exact hk

theorem effInterval_pos (p : ℚ) : 0 < effInterval p := by
  unfold effInterval
  by_cases hp : p > 0
  · rw [if_pos hp]; exact hp
  · rw [if_neg hp]; norm_num

theorem nonTerminal_ne_success (s : PyStr) (h : nonTerminal s = true) :
    s ≠ strv "SUCCESS" := by
  unfold nonTerminal at h
  rcases Bool.or_eq_true_iff.mp h with h1 | h1
  · have : s = strv "QUEUED" := by simpa using h1
    rw [this]; decide
  · have : s = strv "RUNNING" := by simpa using h1
    rw [this]; decide

theorem markAll_all_nf (es : List PEntry) :
    ∀ e ∈ markAllFallback es, e.needsFallback = true := by
  intro e he
  rcases List.mem_map.mp he with ⟨e0, _, hfe⟩
  rw [← hfe]

theorem nf_stable : ∀ e : PEntry, e.needsFallback = true →
    ({ e with needsFallback := true } : PEntry).needsFallback = true := by
  intro e _
  rfl

theorem batchWriteStage_all_nf (writeOk : Nat → Bool) (es : List PEntry)
    (h : ∀ e ∈ es, e.needsFallback = true) : batchWriteStage writeOk es = [] := by
  unfold batchWriteStage
  rw [List.filter_eq_nil_iff.mpr (by intro e he; simp [h e he])]
  rfl

theorem filter_nf_all (es : List PEntry) (h : ∀ e ∈ es, e.needsFallback = true) :
    es.filter (·.needsFallback) = es :=
  List.filter_eq_self.mpr (fun e he => h e he)

/-- C6: with a positive timeout, the deadline is set that many minutes
ahead and the poll loop stops at the first iteration past the deadline even
though the status is still non-terminal, and after such an exit the status
is not `"SUCCESS"` so every prepared entry is flagged for fallback, none is
written by the batch write stage, and all of them are handed to the fallback
loop; with a zero timeout no deadline is set and the loop exits only at the
first terminal status, every earlier status having been non-terminal. -/
theorem c6_timeout_bounds_polling :
    (∀ tm : ℚ, 0 < tm → mkDeadline tm = some (tm * 60))
    ∧ mkDeadline 0 = none
    ∧ (∀ (statuses : Nat → PyStr) (interval : ℚ) (fuel k : Nat) (b : Bool),
        pollExit statuses interval none fuel 0 = some (k, b) →
        b = false ∧ nonTerminal (statuses k) = false
        ∧ (∀ j, j < k → nonTerminal (statuses j) = true))
    ∧ (∀ (statuses : Nat → PyStr) (interval d : ℚ) (fuel k : Nat),
        pollExit statuses interval (some d) fuel 0 = some (k, true) →
        nonTerminal (statuses k) = true ∧ d ≤ (k : ℚ) * interval
        ∧ statuses k ≠ strv "SUCCESS")
    ∧ (∀ (statuses : Nat → PyStr) (d interval : ℚ), 0 < interval →
        (∀ j, nonTerminal (statuses j) = true) →
        ∃ fuel k, pollExit statuses interval (some d) fuel 0 = some (k, true))
    ∧ (∀ (writeOk : Nat → Bool) (tasks : List (Cid × (Nat × PyStr)))
        (prepared : List PEntry),
        (∀ e ∈ routePending (routeMissing tasks [] (markAllFallback prepared)),
          e.needsFallback = true)
        ∧ batchWriteStage writeOk
            (routePending (routeMissing tasks [] (markAllFallback prepared))) = []
        ∧ (routePending (routeMissing tasks [] (markAllFallback prepared))).filter
            (·.needsFallback)
          = routePending (routeMissing tasks [] (markAllFallback prepared))) := by
  refine ⟨?_, ?_, ?_, ?_, ?_, ?_⟩
  · intro tm htm
    unfold mkDeadline
    rw [if_pos htm]
  · unfold mkDeadline
    norm_num
  · intro statuses interval fuel k b h
    obtain ⟨hb, hterm, _, hall⟩ := pollExit_no_deadline statuses interval fuel 0 k b h
    exact ⟨hb, hterm, fun j hj => hall j (Nat.zero_le j) hj⟩
  · intro statuses interval d fuel k h
    obtain ⟨hnt, hd⟩ := pollExit_timedOut statuses interval d fuel 0 k h
    exact ⟨hnt, hd, nonTerminal_ne_success _ hnt⟩
  · intro statuses d interval hpos hnt
    have hd : d ≤ ((0 + ⌈d / interval⌉₊ : Nat) : ℚ) * interval := by
      have h1 : d / interval ≤ ((⌈d / interval⌉₊ : Nat) : ℚ) := Nat.le_ceil _
      have h2 : d / interval * interval ≤ ((⌈d / interval⌉₊ : Nat) : ℚ) * interval :=
        mul_le_mul_of_nonneg_right h1 (le_of_lt hpos)
      rw [div_mul_cancel₀ d (ne_of_gt hpos)] at h2
      simpa using h2
    obtain ⟨k, hk⟩ := pollExit_timeout_exists statuses interval d hnt
      ⌈d / interval⌉₊ 0 hd
    exact ⟨⌈d / interval⌉₊ + 1, k, hk⟩
  · intro writeOk tasks prepared
    have hall : ∀ e ∈ routePending (routeMissing tasks [] (markAllFallback prepared)),
        e.needsFallback = true :=
      @routePending_pres (fun e => e.needsFallback = true) (fun e _ => rfl) _
        (@routeMissing_pres (fun e => e.needsFallback = true) (fun e _ => rfl)
          tasks [] _ (markAll_all_nf prepared))
    exact ⟨hall, batchWriteStage_all_nf writeOk _ hall, filter_nf_all _ hall⟩

/-- Witness for C6: scenario B of the spec — a job that never leaves
`RUNNING`, polled every 5 seconds against a 60-second deadline, exits the
loop at iteration 12 with a still-running status; a terminal status exits
immediately with no timeout; and the all-fallback routing on a concrete
entry writes nothing in the batch stage. -/
theorem c6_timeout_bounds_polling_witness :
    nonTerminal (strv "SUCCESS") = false
    ∧ (nonTerminal (strv "RUNNING") = true ∧ (60 : ℚ) ≤ ((12 : Nat) : ℚ) * 5
        ∧ strv "RUNNING" ≠ strv "SUCCESS")
    ∧ batchWriteStage (fun _ => true)
        (routePending (routeMissing [] []
          (markAllFallback [⟨1, strv "a", ⟨strv "T", strv "D", strv "X"⟩, [], [], false⟩])))
      = []
    ∧ mkDeadline 0 = none := by
  refine ⟨?_, ?_, ?_, ?_⟩
  · exact (c6_timeout_bounds_polling.2.2.1 (fun _ => strv "SUCCESS") 5 1 0 false
      (by decide)).2.1
  · exact c6_timeout_bounds_polling.2.2.2.1 (fun _ => strv "RUNNING") 5 60 20 12
      (by
        have hrun : nonTerminal (strv "RUNNING") = true := by decide
        norm_num [pollExit, hrun])
  · exact (c6_timeout_bounds_polling.2.2.2.2.2 (fun _ => true) []
      [⟨1, strv "a", ⟨strv "T", strv "D", strv "X"⟩, [], [], false⟩]).2.1
  · exact c6_timeout_bounds_polling.2.1

/-- C4: the batch write stage writes an item exactly when, after the
pending-key routing, its pending sub-field key set is empty and it was not
flagged for fallback; every other item is routed, whole, to the fallback
list; and no written item has an unresolved sub-field key. -/
theorem c4_no_partial_success :
    ∀ (writeOk : Nat → Bool) (es : List PEntry),
      ((batchWriteStage writeOk (routePending es)).map (·.pos)
        = (es.filter (fun e => e.pendingKeys.isEmpty && !e.needsFallback)).map
            (·.position))
      ∧ (((routePending es).filter (·.needsFallback)).map (·.position)
        = (es.filter (fun e => !(e.pendingKeys.isEmpty && !e.needsFallback))).map
            (·.position))
      ∧ (∀ e ∈ routePending es, e.needsFallback = false → e.pendingKeys = []) := by
  intro writeOk es
  induction es with
  | nil => exact ⟨rfl, rfl, by intro e he; simp [routePending] at he⟩
  | cons e es ih =>
    obtain ⟨ih1, ih2, ih3⟩ := ih
    by_cases hpk : e.pendingKeys = []
    · by_cases hnf : e.needsFallback = true
      · refine ⟨?_, ?_, ?_⟩
        · simp only [routePending, List.map_cons, hpk, if_true, batchWriteStage,
            List.filter_cons, hnf]
          simp only [routePending, batchWriteStage] at ih1
          simpa [hpk, hnf] using ih1
        · simp only [routePending, List.map_cons, hpk, if_true, List.filter_cons, hnf]
          simp only [routePending] at ih2
          simpa [hpk, hnf] using ih2
        · intro e' he' hnf'
          simp only [routePending, List.map_cons, hpk, if_true] at he'
          rcases List.mem_cons.mp he' with hh | hh
          · rw [hh]; exact hpk
          · exact ih3 e' (by simpa [routePending] using hh) hnf'
      · have hnf2 : e.needsFallback = false := by revert hnf; cases e.needsFallback <;> simp
        refine ⟨?_, ?_, ?_⟩
        · simp only [routePending, List.map_cons, hpk, if_true, batchWriteStage,
            List.filter_cons, hnf2]
          simp only [routePending, batchWriteStage] at ih1
          simp [hpk, hnf2, ih1, apply_ite]
        · simp only [routePending, List.map_cons, hpk, if_true, List.filter_cons, hnf2]
          simp only [routePending] at ih2
          simpa [hpk, hnf2] using ih2
        · intro e' he' hnf'
          simp only [routePending, List.map_cons, hpk, if_true] at he'
          rcases List.mem_cons.mp he' with hh | hh
          · rw [hh]; exact hpk
          · exact ih3 e' (by simpa [routePending] using hh) hnf'
    · refine ⟨?_, ?_, ?_⟩
      · simp only [routePending, List.map_cons, hpk, if_false, batchWriteStage,
          List.filter_cons]
        simp only [routePending, batchWriteStage] at ih1
        simpa [hpk] using ih1
      · simp only [routePending, List.map_cons, hpk, if_false, List.filter_cons]
        simp only [routePending] at ih2
        simpa [hpk] using ih2
      · intro e' he' hnf'
        simp only [routePending, List.map_cons, hpk, if_false] at he'
        rcases List.mem_cons.mp he' with hh | hh
        · rw [hh] at hnf'
          simp at hnf'
        · exact ih3 e' (by simpa [routePending] using hh) hnf'

/-- Witness for C4: a concrete pair of entries, one fully resolved and one
with a pending key — only the first is written, only the second goes to
fallback, and the written one has no pending key. -/
theorem c4_no_partial_success_witness :
    (batchWriteStage (fun _ => true) (routePending
      [⟨1, strv "a", ⟨strv "T", strv "D", strv "X"⟩, [], [], false⟩,
       ⟨2, strv "b", ⟨strv "T", strv "D", strv "X"⟩, [], [strv "title_en"], false⟩])).map
        (·.pos) = [1]
    ∧ ((routePending
      [⟨1, strv "a", ⟨strv "T", strv "D", strv "X"⟩, [], [], false⟩,
       ⟨2, strv "b", ⟨strv "T", strv "D", strv "X"⟩, [], [strv "title_en"], false⟩]).filter
        (·.needsFallback)).map (·.position) = [2] := by
  constructor
  · rw [(c4_no_partial_success (fun _ => true)
      [⟨1, strv "a", ⟨strv "T", strv "D", strv "X"⟩, [], [], false⟩,
       ⟨2, strv "b", ⟨strv "T", strv "D", strv "X"⟩, [], [strv "title_en"], false⟩]).1]
    decide
  · rw [(c4_no_partial_success (fun _ => true)
      [⟨1, strv "a", ⟨strv "T", strv "D", strv "X"⟩, [], [], false⟩,
       ⟨2, strv "b", ⟨strv "T", strv "D", strv "X"⟩, [], [strv "title_en"], false⟩]).2.1]
    decide

theorem fallbackStage_recs (oracle : SyncOracle) (writeOk : Nat → Bool)
    (langs : List PyStr) :
    ∀ (es : List PEntry) (k : Nat),
      ((fallbackStage oracle writeOk langs k es).2.1.map (·.pos)
        = es.map (·.position))
      ∧ ((fallbackStage oracle writeOk langs k es).1.filterMap attemptPos
        = es.map (·.position))
      ∧ (∀ rec ∈ (fallbackStage oracle writeOk langs k es).2.1,
          rec.outcome = Outcome.succeeded ↔ rec.persisted = true)
      ∧ ((fallbackStage oracle writeOk langs k es).1.countP
            (fun ev => decide (ev = FEvent.slept))
        = ((fallbackStage oracle writeOk langs k es).2.1.filter
            (fun rec => decide (rec.outcome = Outcome.succeeded))).length)
      ∧ (∀ ev ∈ (fallbackStage oracle writeOk langs k es).1, ∀ pos r res,
          ev = FEvent.attempt pos r res →
          ∃ kc, res = (translateRecipe oracle kc r langs).1) := by
  intro es
  induction es with
  | nil =>
    intro k
    refine ⟨rfl, rfl, ?_, rfl, ?_⟩
    · intro rec hrec; simp [fallbackStage] at hrec
    · intro ev hev; simp [fallbackStage] at hev
  | cons e es ih =>
    intro k
    rcases htr : translateRecipe oracle k e.recipe langs with ⟨od, reqs, k'⟩
    obtain ⟨ih1, ih2, ih3, ih4, ih5⟩ := ih k'
    cases od with
    | none =>
      simp only [fallbackStage, htr]
      refine ⟨?_, ?_, ?_, ?_, ?_⟩
      · simpa using ih1
      · simpa [attemptPos] using ih2
      · intro rec hrec
        rcases List.mem_cons.mp hrec with hh | hh
        · rw [hh]; simp
        · exact ih3 rec hh
      · simpa [attemptPos] using ih4
      · intro ev hev pos r res hev2
        rcases List.mem_cons.mp hev with hh | hh
        · rw [hh] at hev2
          injection hev2 with p1 p2 p3
          subst p1; subst p2; subst p3
          exact ⟨k, by rw [htr]⟩
        · exact ih5 ev hh pos r res hev2
    | some d =>
      by_cases hw : writeOk e.position = true
      · simp only [fallbackStage, htr, hw, if_true]
        refine ⟨?_, ?_, ?_, ?_, ?_⟩
        · simpa using ih1
        · simpa [attemptPos] using ih2
        · intro rec hrec
          rcases List.mem_cons.mp hrec with hh | hh
          · rw [hh]; simp
          · exact ih3 rec hh
        · simpa [attemptPos] using ih4
        · intro ev hev pos r res hev2
          rcases List.mem_cons.mp hev with hh | hh
          · rw [hh] at hev2
            injection hev2 with p1 p2 p3
            subst p1; subst p2; subst p3
            exact ⟨k, by rw [htr]⟩
          · rcases List.mem_cons.mp hh with hh2 | hh2
            · rw [hh2] at hev2; cases hev2
            · exact ih5 ev hh2 pos r res hev2
      · have hw2 : writeOk e.position = false := by
          revert hw; cases writeOk e.position <;> simp
        simp only [fallbackStage, htr, hw2, if_false]
        refine ⟨?_, ?_, ?_, ?_, ?_⟩
        · simpa using ih1
        · simpa [attemptPos] using ih2
        · intro rec hrec
          rcases List.mem_cons.mp hrec with hh | hh
          · rw [hh]; simp
          · exact ih3 rec hh
        · simpa [attemptPos] using ih4
        · intro ev hev pos r res hev2
          rcases List.mem_cons.mp hev with hh | hh
          · rw [hh] at hev2
            injection hev2 with p1 p2 p3
            subst p1; subst p2; subst p3
            exact ⟨k, by rw [htr]⟩
          · exact ih5 ev hh pos r res hev2

theorem fallbackStage_sleep_after_save (oracle : SyncOracle) (writeOk : Nat → Bool)
    (langs : List PyStr) :
    ∀ (es : List PEntry) (k : Nat),
      (fallbackStage oracle writeOk langs k es).1.get? 0 ≠ some FEvent.slept
      ∧ (∀ i, (fallbackStage oracle writeOk langs k es).1.get? i = some FEvent.slept →
          ∃ pos r d, (fallbackStage oracle writeOk langs k es).1.get? (i - 1)
            = some (FEvent.attempt pos r (some d))) := by
  intro es
  induction es with
  | nil =>
    intro k
    constructor
    · simp [fallbackStage]
    · intro i h; simp [fallbackStage] at h
  | cons e es ih =>
    intro k
    rcases htr : translateRecipe oracle k e.recipe langs with ⟨od, reqs, k'⟩
    obtain ⟨ih1, ih2⟩ := ih k'
    cases od with
    | none =>
      simp only [fallbackStage, htr]
      constructor
      · simp
      · intro i h
        cases i with
        | zero => simp at h
        | succ j =>
          rw [List.get?_cons_succ] at h
          cases j with
          | zero => exact absurd h ih1
          | succ m =>
            obtain ⟨pos, r, d, hd⟩ := ih2 (m + 1) h
            refine ⟨pos, r, d, ?_⟩
            rw [show m + 1 + 1 - 1 = (m + 1 - 1) + 1 from by omega,
              List.get?_cons_succ]
            exact hd
    | some d0 =>
      by_cases hw : writeOk e.position = true
      · simp only [fallbackStage, htr, hw, if_true]
        constructor
        · simp
        · intro i h
          cases i with
          | zero => simp at h
          | succ j =>
            cases j with
            | zero => exact ⟨e.position, e.recipe, d0, by simp⟩
            | succ m =>
              rw [List.get?_cons_succ, List.get?_cons_succ] at h
              cases m with
              | zero => exact absurd h ih1
              | succ n =>
                obtain ⟨pos, r, d, hd⟩ := ih2 (n + 1) h
                refine ⟨pos, r, d, ?_⟩
                rw [show n + 1 + 1 + 1 - 1 = ((n + 1 - 1) + 1) + 1 from by omega,
                  List.get?_cons_succ, List.get?_cons_succ]
                exact hd
      · have hw2 : writeOk e.position = false := by
          revert hw; cases writeOk e.position <;> simp
        simp only [fallbackStage, htr, hw2, Bool.false_eq_true, if_false]
        constructor
        · simp
        · intro i h
          cases i with
          | zero => simp at h
          | succ j =>
            rw [List.get?_cons_succ] at h
            cases j with
            | zero => exact absurd h ih1
            | succ m =>
              obtain ⟨pos, r, d, hd⟩ := ih2 (m + 1) h
              refine ⟨pos, r, d, ?_⟩
              rw [show m + 1 + 1 - 1 = (m + 1 - 1) + 1 from by omega,
                List.get?_cons_succ]
              exact hd

/-- C5: every entry with a non-empty pending key set is flagged and appears
in the fallback list; the fallback loop attempts exactly the flagged entries,
once each and in order; every attempt is a `translate_recipe` run (the
synchronous call path) on the entry's stored recipe; and the pacing sleep
occurs exactly once per successful save, always directly after the
successful attempt it paces. -/
theorem c5_fallback_coverage :
    (∀ (es : List PEntry), ∀ e ∈ es, e.pendingKeys ≠ [] →
        e.position ∈ ((routePending es).filter (·.needsFallback)).map (·.position))
    ∧ (∀ (oracle : SyncOracle) (writeOk : Nat → Bool) (langs : List PyStr)
        (k : Nat) (fes : List PEntry),
        ((fallbackStage oracle writeOk langs k fes).2.1.map (·.pos)
          = fes.map (·.position))
        ∧ ((fallbackStage oracle writeOk langs k fes).1.filterMap attemptPos
          = fes.map (·.position))
        ∧ (∀ ev ∈ (fallbackStage oracle writeOk langs k fes).1, ∀ pos r res,
            ev = FEvent.attempt pos r res →
            ∃ kc, res = (translateRecipe oracle kc r langs).1)
        ∧ ((fallbackStage oracle writeOk langs k fes).1.countP
              (fun ev => decide (ev = FEvent.slept))
          = ((fallbackStage oracle writeOk langs k fes).2.1.filter
              (fun rec => decide (rec.outcome = Outcome.succeeded))).length)
        ∧ (∀ i, (fallbackStage oracle writeOk langs k fes).1.get? i
              = some FEvent.slept →
            ∃ pos r d, (fallbackStage oracle writeOk langs k fes).1.get? (i - 1)
              = some (FEvent.attempt pos r (some d)))) := by
  constructor
  · intro es e he hpk
    have hmem : ({ e with needsFallback := true } : PEntry) ∈ routePending es := by
      have hm := List.mem_map_of_mem
        (fun e => if e.pendingKeys = [] then e else { e with needsFallback := true }) he
      simpa [routePending, hpk] using hm
    exact List.mem_map.mpr ⟨_, List.mem_filter.mpr ⟨hmem, rfl⟩, rfl⟩
  · intro oracle writeOk langs k fes
    obtain ⟨h1, h2, _, h4, h5⟩ := fallbackStage_recs oracle writeOk langs fes k
    obtain ⟨_, h6⟩ := fallbackStage_sleep_after_save oracle writeOk langs fes k
    exact ⟨h1, h2, h5, h4, h6⟩

/-- Witness for C5: a pending-keyed entry lands in the fallback list, and a
one-entry fallback run attempts exactly it and sleeps exactly once after its
successful save. -/
theorem c5_fallback_coverage_witness :
    ((2 : Nat) ∈ ((routePending
        [⟨2, strv "b", ⟨strv "T", strv "D", strv "X"⟩, [], [strv "title_en"], false⟩]).filter
          (·.needsFallback)).map (·.position))
    ∧ ((fallbackStage (fun _ => .error ()) (fun _ => true) [] 0
        [⟨3, strv "c", ⟨strv "T", strv "D", strv "X"⟩, [], [], true⟩]).1.filterMap
          attemptPos = [3])
    ∧ ((fallbackStage (fun _ => .error ()) (fun _ => true) [] 0
        [⟨3, strv "c", ⟨strv "T", strv "D", strv "X"⟩, [], [], true⟩]).1.countP
          (fun ev => decide (ev = FEvent.slept)) = 1) := by
  refine ⟨?_, ?_, ?_⟩
  · exact c5_fallback_coverage.1
      [⟨2, strv "b", ⟨strv "T", strv "D", strv "X"⟩, [], [strv "title_en"], false⟩]
      ⟨2, strv "b", ⟨strv "T", strv "D", strv "X"⟩, [], [strv "title_en"], false⟩
      (by simp) (by decide)
  · rw [(c5_fallback_coverage.2 (fun _ => .error ()) (fun _ => true) [] 0
      [⟨3, strv "c", ⟨strv "T", strv "D", strv "X"⟩, [], [], true⟩]).2.1]
    decide
  · rw [(c5_fallback_coverage.2 (fun _ => .error ()) (fun _ => true) [] 0
      [⟨3, strv "c", ⟨strv "T", strv "D", strv "X"⟩, [], [], true⟩]).2.2.2.1]
    decide

theorem setAdd_mem {α : Type} [DecidableEq α] (s : List α) (a b : α) :
    a ∈ setAdd s b ↔ a ∈ s ∨ a = b := by
  unfold setAdd
  by_cases hb : b ∈ s
  · rw [if_pos hb]
    constructor
    · exact Or.inl
    · intro h
      rcases h with h | h
      · exact h
      · rw [h]; exact hb
  · rw [if_neg hb]
    simp

theorem applyClass_sets (st : ResolveState) (c : LClass) :
    ((applyClass st c).processed = st.processed)
    ∧ (∀ cid, cid ∈ (applyClass st c).successes
        ↔ cid ∈ st.successes ∨ ∃ t, c = .assign cid t)
    ∧ (∀ cid, cid ∈ (applyClass st c).errors
        ↔ cid ∈ st.errors ∨ c = .fbflag cid) := by
  cases c with
  | skip => exact ⟨rfl, by simp [applyClass], by simp [applyClass]⟩
  | abort => exact ⟨rfl, by simp [applyClass], by simp [applyClass]⟩
  | fbflag cid0 =>
    refine ⟨rfl, by simp [applyClass], ?_⟩
    intro cid
    simp only [applyClass]
    rw [setAdd_mem]
    constructor
    · intro h
      rcases h with h | h
      · exact Or.inl h
      · exact Or.inr (by rw [h])
    · intro h
      rcases h with h | h
      · exact Or.inl h
      · injection h with h2
        exact Or.inr h2.symm
  | assign cid0 t0 =>
    refine ⟨rfl, ?_, by simp [applyClass]⟩
    intro cid
    simp only [applyClass]
    rw [setAdd_mem]
    constructor
    · intro h
      rcases h with h | h
      · exact Or.inl h
      · exact Or.inr ⟨t0, by rw [h]⟩
    · intro h
      rcases h with h | ⟨t, h⟩
      · exact Or.inl h
      · injection h with h2 h3
        exact Or.inr h2.symm

theorem lineStep_processed (tasks : List (Cid × (Nat × PyStr))) (st : ResolveState)
    (rl : RawLine) (st' : ResolveState) (h : lineStep tasks st rl = .ok st') :
    (∀ cid, cid ∈ st'.processed ↔ cid ∈ st.processed ∨ lineCid rl = some cid)
    ∧ (∀ cid, cid ∈ st'.successes
        ↔ cid ∈ st.successes ∨ ∃ t, lineClass tasks rl = .assign cid t)
    ∧ (∀ cid, cid ∈ st'.errors
        ↔ cid ∈ st.errors ∨ lineClass tasks rl = .fbflag cid) := by
  rw [lineStep] at h
  by_cases hab : lineClass tasks rl = LClass.abort
  · rw [if_pos hab] at h
    cases h
  · rw [if_neg hab] at h
    injection h with h2
    rw [← h2]
    have hsets := applyClass_sets (match lineCid rl with
      | some cid => { st with processed := setAdd st.processed cid }
      | none => st) (lineClass tasks rl)
    cases hcid : lineCid rl with
    | none =>
      rw [hcid] at hsets
      refine ⟨?_, hsets.2.1, hsets.2.2⟩
      intro cid
      rw [hsets.1]
      simp
    | some cid0 =>
      rw [hcid] at hsets
      refine ⟨?_, hsets.2.1, hsets.2.2⟩
      intro cid
      rw [hsets.1]
      show cid ∈ setAdd st.processed cid0 ↔ _
      rw [setAdd_mem]
      constructor
      · intro h
        rcases h with h | h
        · exact Or.inl h
        · exact Or.inr (by rw [h])
      · intro h
        rcases h with h | h
        · exact Or.inl h
        · injection h with h3
          exact Or.inr h3.symm

theorem resolve_sets (tasks : List (Cid × (Nat × PyStr))) :
    ∀ (lines : List RawLine) (st0 st : ResolveState),
      resolveLines tasks st0 lines = .ok st →
      (∀ cid, cid ∈ st.processed
        ↔ cid ∈ st0.processed ∨ ∃ l ∈ lines, lineCid l = some cid)
      ∧ (∀ cid, cid ∈ st.successes
        ↔ cid ∈ st0.successes ∨ ∃ l ∈ lines, ∃ t, lineClass tasks l = .assign cid t)
      ∧ (∀ cid, cid ∈ st.errors
        ↔ cid ∈ st0.errors ∨ ∃ l ∈ lines, lineClass tasks l = .fbflag cid) := by
  intro lines
  induction lines with
  | nil =>
    intro st0 st h
    cases h
    exact ⟨by simp, by simp, by simp⟩
  | cons l ls ih =>
    intro st0 st h
    cases hstep : lineStep tasks st0 l with
    | error s =>
      simp only [resolveLines, hstep] at h
      exact absurd h (by simp)
    | ok s =>
      simp only [resolveLines, hstep] at h
      obtain ⟨ihp, ihs, ihe⟩ := ih s st h
      obtain ⟨hp, hs, he⟩ := lineStep_processed tasks st0 l s hstep
      refine ⟨?_, ?_, ?_⟩
      · intro cid
        rw [ihp cid, hp cid]
        simp only [List.mem_cons]
        constructor
        · rintro ((h | h) | ⟨l2, hl2, hcl2⟩)
          · exact Or.inl h
          · exact Or.inr ⟨l, Or.inl rfl, h⟩
          · exact Or.inr ⟨l2, Or.inr hl2, hcl2⟩
        · rintro (h | ⟨l2, (rfl | hl2), hcl2⟩)
          · exact Or.inl (Or.inl h)
          · exact Or.inl (Or.inr hcl2)
          · exact Or.inr ⟨l2, hl2, hcl2⟩
      · intro cid
        rw [ihs cid, hs cid]
        simp only [List.mem_cons]
        constructor
        · rintro ((h | h) | ⟨l2, hl2, hcl2⟩)
          · exact Or.inl h
          · exact Or.inr ⟨l, Or.inl rfl, h⟩
          · exact Or.inr ⟨l2, Or.inr hl2, hcl2⟩
        · rintro (h | ⟨l2, (rfl | hl2), hcl2⟩)
          · exact Or.inl (Or.inl h)
          · exact Or.inl (Or.inr hcl2)
          · exact Or.inr ⟨l2, hl2, hcl2⟩
      · intro cid
        rw [ihe cid, he cid]
        simp only [List.mem_cons]
        constructor
        · rintro ((h | h) | ⟨l2, hl2, hcl2⟩)
          · exact Or.inl h
          · exact Or.inr ⟨l, Or.inl rfl, h⟩
          · exact Or.inr ⟨l2, Or.inr hl2, hcl2⟩
        · rintro (h | ⟨l2, (rfl | hl2), hcl2⟩)
          · exact Or.inl (Or.inl h)
          · exact Or.inl (Or.inr hcl2)
          · exact Or.inr ⟨l2, hl2, hcl2⟩

theorem lineClass_total (tasks : List (Cid × (Nat × PyStr))) (cid0 : Cid)
    (errv : Option JVal) (resp : Option RespObj) (tk : Nat × PyStr)
    (hdg : dget tasks cid0 = some tk) :
    lineClass tasks (.rcd (some cid0) errv resp) = .fbflag cid0
    ∨ ∃ t, lineClass tasks (.rcd (some cid0) errv resp) = .assign cid0 t := by
  cases errv with
  | some ev => exact Or.inl (by simp [lineClass, hdg])
  | none =>
    cases resp with
    | none => exact Or.inl (by simp [lineClass, hdg])
    | some ro =>
      have hcb : lineClass tasks (.rcd (some cid0) none (some ro))
          = (match coerceStatus ro.statusCode with
             | some n => if n ≥ 400 then LClass.fbflag cid0
                 else classifyBody cid0 tk.2 ro.body
             | none => classifyBody cid0 tk.2 ro.body) := by
        simp [lineClass, hdg]
      rw [hcb]
      cases coerceStatus ro.statusCode with
      | some n =>
        by_cases hn : n ≥ 400
        · exact Or.inl (by simp [hn])
        · rcases classifyBody_cases cid0 tk.2 ro.body with ⟨t, ht⟩ | hf
          · exact Or.inr ⟨t, by simp only [hn, if_false]; exact ht⟩
          · exact Or.inl (by simp only [hn, if_false]; exact hf)
      | none =>
        rcases classifyBody_cases cid0 tk.2 ro.body with ⟨t, ht⟩ | hf
        · exact Or.inr ⟨t, ht⟩
        · exact Or.inl hf


theorem lineClass_not_abort (tasks : List (Cid × (Nat × PyStr))) (rl : RawLine)
    (h : rl ≠ RawLine.nonObj) : lineClass tasks rl ≠ LClass.abort := by
  cases rl with
  | blank => simp [lineClass]
  | junk => simp [lineClass]
  | nonObj => exact absurd rfl h
  | rcd c errv resp =>
    cases c with
    | none => simp [lineClass]
    | some cid0 =>
      cases hdg : dget tasks cid0 with
      | none => simp [lineClass, hdg]
      | some tk =>
        rcases lineClass_total tasks cid0 errv resp tk hdg with hf | ⟨t, hf⟩ <;>
          rw [hf] <;> simp

theorem resolve_no_abort (tasks : List (Cid × (Nat × PyStr))) :
    ∀ (lines : List RawLine) (st0 : ResolveState),
      (∀ l ∈ lines, l ≠ RawLine.nonObj) →
      ∃ st, resolveLines tasks st0 lines = .ok st := by
  intro lines
  induction lines with
  | nil => intro st0 _; exact ⟨st0, rfl⟩
  | cons l ls ih =>
    intro st0 hno
    have hstep : lineStep tasks st0 l
        = .ok (applyClass (match lineCid l with
            | some cid => { st0 with processed := setAdd st0.processed cid }
            | none => st0) (lineClass tasks l)) := by
      rw [lineStep,
        if_neg (lineClass_not_abort tasks l (hno l (List.mem_cons_self l ls)))]
    obtain ⟨st, hst⟩ := ih (applyClass (match lineCid l with
        | some cid => { st0 with processed := setAdd st0.processed cid }
        | none => st0) (lineClass tasks l))
      (fun l2 h2 => hno l2 (List.mem_cons_of_mem l h2))
    exact ⟨st, by simp only [resolveLines, hstep]; exact hst⟩

theorem lineClass_cid (tasks : List (Cid × (Nat × PyStr))) (rl : RawLine) :
    (∀ cid t, lineClass tasks rl = .assign cid t →
        lineCid rl = some cid ∧ dget tasks cid ≠ none)
    ∧ (∀ cid, lineClass tasks rl = .fbflag cid →
        lineCid rl = some cid ∧ dget tasks cid ≠ none) := by
  constructor
  · intro cid t h
    rcases lineClass_shape tasks rl with hs | hs | ⟨cid0, tk, hlc, hdg, hform⟩
    · rw [hs] at h; cases h
    · rw [hs] at h; cases h
    · rcases hform with hf | ⟨t0, hf⟩
      · rw [hf] at h; cases h
      · rw [hf] at h
        injection h with h2 h3
        rw [← h2]
        exact ⟨hlc, by rw [hdg]; simp⟩
  · intro cid h
    rcases lineClass_shape tasks rl with hs | hs | ⟨cid0, tk, hlc, hdg, hform⟩
    · rw [hs] at h; cases h
    · rw [hs] at h; cases h
    · rcases hform with hf | ⟨t0, hf⟩
      · rw [hf] at h
        injection h with h2
        rw [← h2]
        exact ⟨hlc, by rw [hdg]; simp⟩
      · rw [hf] at h; cases h

theorem two_mem_le_countP {α : Type} (l : List α) (p : α → Bool)
    (a b : α) (ha : a ∈ l) (hb : b ∈ l) (hab : a ≠ b)
    (hpa : p a = true) (hpb : p b = true) : 2 ≤ l.countP p := by
  induction l with
  | nil => cases ha
  | cons x xs ih =>
    rcases List.mem_cons.mp ha with rfl | ha'
    · have hb' : b ∈ xs := by
        rcases List.mem_cons.mp hb with rfl | hb'
        · exact absurd rfl hab
        · exact hb'
      have h1 : 0 < xs.countP p := List.countP_pos_iff.mpr ⟨b, hb', hpb⟩
      rw [List.countP_cons_of_pos _ _ hpa]
      omega
    · rcases List.mem_cons.mp hb with rfl | hb'
      · have h1 : 0 < xs.countP p := List.countP_pos_iff.mpr ⟨a, ha', hpa⟩
        rw [List.countP_cons_of_pos _ _ hpb]
        omega
      · have h2 := ih ha' hb'
        have h3 := List.countP_cons p x xs
        omega

/-- C3 counterexample: a batch job whose output holds two result lines with
the same correlation id — one carrying an `error` field, one a successful
body — resolves that id both as an error (the entry is flagged for fallback)
and as a success (the translation is stored): the resolved-success and
resolved-error sets are not disjoint, so the three sets do not partition the
emitted ids as the claim states. -/
theorem c3_correlation_counterexample :
    ((resolveLines
        (tasksOf [⟨(1, strv "title_en"), strv "title", strv "T", strv "en"⟩])
        ⟨[], [], [], []⟩
        [RawLine.rcd (some (1, strv "title_en"))
          (some (JVal.objv [(strv "message", JVal.strjv (strv "boom"))])) none,
         RawLine.rcd (some (1, strv "title_en")) none (some ⟨some (JVal.numv 200),
           some (BodyVal.jv (JVal.objv [(strv "choices", JVal.arrv [JVal.objv
             [(strv "message", JVal.objv [(strv "content",
               JVal.strjv (strv "Hello"))])]])]))⟩)]).toOption.map
      (fun st => decide ((1, strv "title_en") ∈ st.successes)
        && decide ((1, strv "title_en") ∈ st.errors))) = some true := rfl

/-- C3 (amended): provided every output line parses to a JSON object (no
line aborts the resolution loop) and each emitted correlation id occurs on
at most one output line, the ids resolved as success, the ids resolved as
error, and the ids reported missing are all drawn from the emitted ids and
form a partition of them: resolution completes, each emitted id is in at
least one of the three sets, no id is both a success and an error, and no
missing id is a success or an error. -/
theorem c3_correlation_partition :
    (∀ (bls : List BatchLine) (ols : List RawLine) (es0 : List PEntry),
      (∀ l ∈ ols, l ≠ RawLine.nonObj) →
      ∃ st, resolveLines (tasksOf bls) ⟨es0, [], [], []⟩ ols = .ok st)
    ∧ (∀ (bls : List BatchLine) (ols : List RawLine) (es0 : List PEntry)
        (st : ResolveState),
      resolveLines (tasksOf bls) ⟨es0, [], [], []⟩ ols = .ok st →
      (∀ cid ∈ bls.map (·.cid),
          ols.countP (fun rl => decide (lineCid rl = some cid)) ≤ 1) →
      (∀ cid, cid ∈ st.successes ∨ cid ∈ st.errors →
          cid ∈ bls.map (·.cid) ∧ cid ∈ st.processed)
      ∧ (∀ cid, cid ∈ bls.map (·.cid) →
          cid ∈ st.successes ∨ cid ∈ st.errors
            ∨ cid ∈ (bls.map (·.cid)).filter (fun c => decide (c ∉ st.processed)))
      ∧ (∀ cid, ¬(cid ∈ st.successes ∧ cid ∈ st.errors))
      ∧ (∀ cid, cid ∈ (bls.map (·.cid)).filter (fun c => decide (c ∉ st.processed)) →
          cid ∉ st.successes ∧ cid ∉ st.errors)) := by
  constructor
  · intro bls ols es0 hno
    exact resolve_no_abort (tasksOf bls) ols ⟨es0, [], [], []⟩ hno
  · intro bls ols es0 st hst hdup
    obtain ⟨hp, hsucc, herr⟩ := resolve_sets (tasksOf bls) ols _ st hst
    have hemit : ∀ cid, dget (tasksOf bls) cid ≠ none → cid ∈ bls.map (·.cid) := by
      intro cid hdg
      rw [dget_tasksOf] at hdg
      by_cases hm : cid ∈ bls.map (·.cid)
      · exact hm
      · rw [if_neg hm] at hdg
        exact absurd rfl hdg
    refine ⟨?_, ?_, ?_, ?_⟩
    · intro cid hmem
      rcases hmem with hin | hin
      · rw [hsucc cid] at hin
        rcases hin with hin | ⟨l, hl, t, hcl⟩
        · simp at hin
        · obtain ⟨hlc, hdg⟩ := (lineClass_cid _ l).1 cid t hcl
          exact ⟨hemit cid hdg, (hp cid).mpr (Or.inr ⟨l, hl, hlc⟩)⟩
      · rw [herr cid] at hin
        rcases hin with hin | ⟨l, hl, hcl⟩
        · simp at hin
        · obtain ⟨hlc, hdg⟩ := (lineClass_cid _ l).2 cid hcl
          exact ⟨hemit cid hdg, (hp cid).mpr (Or.inr ⟨l, hl, hlc⟩)⟩
    · intro cid hm
      by_cases hinp : cid ∈ st.processed
      · rw [hp cid] at hinp
        rcases hinp with hin | ⟨l, hl, hlc⟩
        · simp at hin
        · cases l with
          | blank => simp [lineCid] at hlc
          | junk => simp [lineCid] at hlc
          | nonObj => simp [lineCid] at hlc
          | rcd c e r =>
            have hc : c = some cid := by simpa [lineCid] using hlc
            subst hc
            have hdg : dget (tasksOf bls) cid = some (cid.1, cid.2) := by
              rw [dget_tasksOf, if_pos hm]
            rcases lineClass_total (tasksOf bls) cid e r (cid.1, cid.2) hdg
              with hf | ⟨t, hf⟩
            · exact Or.inr (Or.inl ((herr cid).mpr (Or.inr ⟨_, hl, hf⟩)))
            · exact Or.inl ((hsucc cid).mpr (Or.inr ⟨_, hl, t, hf⟩))
      · exact Or.inr (Or.inr (List.mem_filter.mpr ⟨hm, by simpa using hinp⟩))
    · rintro cid ⟨hs1, he1⟩
      rw [hsucc cid] at hs1
      rw [herr cid] at he1
      rcases hs1 with h | ⟨l1, hl1, t, hcl1⟩
      · simp at h
      rcases he1 with h | ⟨l2, hl2, hcl2⟩
      · simp at h
      have hne : l1 ≠ l2 := by
        intro hq
        rw [hq, hcl2] at hcl1
        cases hcl1
      have hp1 : lineCid l1 = some cid := ((lineClass_cid _ l1).1 cid t hcl1).1
      have hp2 : lineCid l2 = some cid := ((lineClass_cid _ l2).2 cid hcl2).1
      have hm : cid ∈ bls.map (·.cid) :=
        hemit cid ((lineClass_cid _ l1).1 cid t hcl1).2
      have h2 := two_mem_le_countP ols (fun rl => decide (lineCid rl = some cid))
        l1 l2 hl1 hl2 hne (by simp [hp1]) (by simp [hp2])
      have h3 := hdup cid hm
      omega
    · intro cid hmem
      have hnp : cid ∉ st.processed := by
        have h4 := (List.mem_filter.mp hmem).2
        simpa using h4
      constructor
      · intro hin
        rw [hsucc cid] at hin
        rcases hin with h | ⟨l, hl, t, hcl⟩
        · simp at h
        · exact hnp ((hp cid).mpr
            (Or.inr ⟨l, hl, ((lineClass_cid _ l).1 cid t hcl).1⟩))
      · intro hin
        rw [herr cid] at hin
        rcases hin with h | ⟨l, hl, hcl⟩
        · simp at h
        · exact hnp ((hp cid).mpr
            (Or.inr ⟨l, hl, ((lineClass_cid _ l).2 cid hcl).1⟩))

/-- Witness for C3's amended theorem: a one-request job whose single output
line succeeds — the id is resolved as a success, and the partition facts
hold at that concrete run. -/
theorem c3_correlation_partition_witness :
    (¬((1, strv "title_en") ∈ ([(1, strv "title_en")] : List Cid)
        ∧ (1, strv "title_en") ∈ ([] : List Cid)))
    ∧ ((1, strv "title_en") ∈ ([(1, strv "title_en")] : List Cid)
        ∨ (1, strv "title_en") ∈ ([] : List Cid)
        ∨ (1, strv "title_en") ∈ (([(1, strv "title_en")] : List Cid).filter
            (fun c => decide (c ∉ ([(1, strv "title_en")] : List Cid))))) := by
  have h := (c3_correlation_partition.2
    [⟨(1, strv "title_en"), strv "title", strv "T", strv "en"⟩]
    [RawLine.rcd (some (1, strv "title_en")) none (some ⟨some (JVal.numv 200),
      some (BodyVal.jv (JVal.objv [(strv "choices", JVal.arrv [JVal.objv
        [(strv "message", JVal.objv [(strv "content",
          JVal.strjv (strv "Hello"))])]])]))⟩)]
    [] ⟨[], [(1, strv "title_en")], [(1, strv "title_en")], []⟩ rfl
    (by intro cid hm; simp only [List.map, List.mem_singleton] at hm; subst hm; decide))
  exact ⟨h.2.2.1 (1, strv "title_en"), h.2.1 (1, strv "title_en") (by decide)⟩

theorem posOf_updEntry (pos : Nat) (f : PEntry → PEntry)
    (hf : ∀ e, (f e).position = e.position) (es : List PEntry) :
    posOf (updEntry pos f es) = posOf es := by
  simp only [posOf, updEntry, List.map_map]
  apply List.map_congr_left
  intro e _
  by_cases h : e.position = pos
  · simp [Function.comp, h, hf]
  · simp [Function.comp, h]

theorem posOf_applyClass (st : ResolveState) (c : LClass) :
    posOf (applyClass st c).entries = posOf st.entries := by
  cases c with
  | skip => rfl
  | abort => rfl
  | fbflag cid =>
    simp only [applyClass]
    exact posOf_updEntry cid.1 (fun e => { e with needsFallback := true })
      (fun e => rfl) st.entries
  | assign cid txt =>
    simp only [applyClass]
    exact posOf_updEntry cid.1 (fun e =>
        { e with translations := dset e.translations cid.2 txt,
                 pendingKeys := setDiscard e.pendingKeys cid.2 })
      (fun e => rfl) st.entries

theorem posOf_lineStep (tasks : List (Cid × (Nat × PyStr))) (st : ResolveState)
    (rl : RawLine) (st' : ResolveState)
    (hres : lineStep tasks st rl = .ok st' ∨ lineStep tasks st rl = .error st') :
    posOf st'.entries = posOf st.entries := by
  have hall1 : (match lineCid rl with
      | some cid => { st with processed := setAdd st.processed cid }
      | none => st).entries = st.entries := by
    cases lineCid rl <;> rfl
  rcases hres with h | h <;> simp only [lineStep] at h <;>
    by_cases hab : lineClass tasks rl = LClass.abort
  · rw [if_pos hab] at h
    cases h
  · rw [if_neg hab] at h
    cases h
    rw [posOf_applyClass, hall1]
  · rw [if_pos hab] at h
    cases h
    rw [hall1]
  · rw [if_neg hab] at h
    cases h

theorem posOf_resolve (tasks : List (Cid × (Nat × PyStr))) :
    ∀ (lines : List RawLine) (st0 st' : ResolveState),
      (resolveLines tasks st0 lines = .ok st'
        ∨ resolveLines tasks st0 lines = .error st') →
      posOf st'.entries = posOf st0.entries := by
  intro lines
  induction lines with
  | nil =>
    intro st0 st' hres
    rcases hres with h | h
    · cases h; rfl
    · cases h
  | cons l ls ih =>
    intro st0 st' hres
    cases hstep : lineStep tasks st0 l with
    | error s =>
      have hs := posOf_lineStep tasks st0 l s (Or.inr hstep)
      rcases hres with h | h <;> simp only [resolveLines, hstep] at h
      · exact absurd h (by simp)
      · injection h with h2
        rw [← h2, hs]
    | ok s =>
      have hs := posOf_lineStep tasks st0 l s (Or.inl hstep)
      rcases hres with h | h <;> simp only [resolveLines, hstep] at h
      · rw [ih s st' (Or.inl h), hs]
      · rw [ih s st' (Or.inr h), hs]

theorem posOf_routeMissing :
    ∀ (tasks : List (Cid × (Nat × PyStr))) (processed : List Cid) (es : List PEntry),
      posOf (routeMissing tasks processed es) = posOf es := by
  intro tasks
  induction tasks with
  | nil => intro processed es; rfl
  | cons kv tks ih =>
    intro processed es
    have hstep : routeMissing (kv :: tks) processed es
        = routeMissing tks processed
          (if kv.1 ∈ processed then es
           else updEntry kv.2.1 (fun e => { e with needsFallback := true }) es) := rfl
    rw [hstep]
    by_cases hmem : kv.1 ∈ processed
    · rw [if_pos hmem]
      exact ih processed es
    · rw [if_neg hmem, ih processed _]
      exact posOf_updEntry kv.2.1 (fun e => { e with needsFallback := true })
        (fun e => rfl) es

theorem posOf_routePending (es : List PEntry) : posOf (routePending es) = posOf es := by
  simp only [posOf, routePending, List.map_map]
  apply List.map_congr_left
  intro e _
  by_cases hp : e.pendingKeys = [] <;> simp [Function.comp, hp]

theorem posOf_markAllFallback (es : List PEntry) :
    posOf (markAllFallback es) = posOf es := by
  simp only [posOf, markAllFallback, List.map_map]
  apply List.map_congr_left
  intro e _
  rfl

theorem batchWriteStage_pos (writeOk : Nat → Bool) (es : List PEntry) :
    (batchWriteStage writeOk es).map (·.pos)
      = posOf (es.filter (fun e => !e.needsFallback)) := by
  simp only [batchWriteStage, posOf, List.map_map]
  apply List.map_congr_left
  intro e _
  by_cases hw : writeOk e.position = true <;> simp [Function.comp, hw]

theorem batchWriteStage_inv (writeOk : Nat → Bool) (es : List PEntry) :
    ∀ rec ∈ batchWriteStage writeOk es,
      rec.outcome = Outcome.succeeded ↔ rec.persisted = true := by
  intro rec hrec
  simp only [batchWriteStage] at hrec
  rcases List.mem_map.mp hrec with ⟨e, _, hfe⟩
  by_cases hw : writeOk e.position = true
  · rw [← hfe]
    simp [hw]
  · have hw2 : writeOk e.position = false := by
      revert hw; cases writeOk e.position <;> simp
    rw [← hfe]
    simp [hw2]

theorem orec_inv_of_iff (o : ORec)
    (h : o.outcome = Outcome.succeeded ↔ o.persisted = true) :
    (o.outcome = Outcome.succeeded ∧ o.persisted = true)
    ∨ (o.outcome = Outcome.failed ∧ o.persisted = false) := by
  cases ho : o.outcome with
  | succeeded => exact Or.inl ⟨rfl, h.mp ho⟩
  | failed =>
    cases hp : o.persisted with
    | true =>
      have h2 := h.mpr hp
      rw [ho] at h2
      cases h2
    | false => exact Or.inr ⟨rfl, rfl⟩

theorem count_filter_split (es : List PEntry) (p : Nat) :
    (posOf (es.filter (fun e => !e.needsFallback))).count p
      + (posOf (es.filter (·.needsFallback))).count p
    = (posOf es).count p := by
  induction es with
  | nil => rfl
  | cons e es ih =>
    by_cases hp : e.position = p <;> cases hnf : e.needsFallback <;>
      simp [posOf, List.filter_cons, hnf, List.count_cons, hp] <;>
      simp [posOf] at ih <;> omega

theorem prepFailed_map_pos (pf : List Nat) :
    (pf.map (fun q => (⟨q, Outcome.failed, false⟩ : ORec))).map (·.pos) = pf := by
  rw [List.map_map]
  have hc : ((fun (o : ORec) => o.pos) ∘ fun q => (⟨q, Outcome.failed, false⟩ : ORec))
      = fun q => q := rfl
  rw [hc]
  simp

theorem prepFailed_map_inv (pf : List Nat) :
    ∀ o ∈ pf.map (fun q => (⟨q, Outcome.failed, false⟩ : ORec)),
      (o.outcome = Outcome.succeeded ∧ o.persisted = true)
      ∨ (o.outcome = Outcome.failed ∧ o.persisted = false) := by
  intro o ho
  rcases List.mem_map.mp ho with ⟨q, _, hfo⟩
  rw [← hfo]
  exact Or.inr ⟨rfl, rfl⟩

theorem earlyWrite_pos (writeOk : Nat → Bool) (es : List PEntry) :
    (es.map (fun e => if writeOk e.position
        then (⟨e.position, Outcome.succeeded, true⟩ : ORec)
        else ⟨e.position, Outcome.failed, false⟩)).map (·.pos) = posOf es := by
  simp only [posOf, List.map_map]
  apply List.map_congr_left
  intro e _
  by_cases hw : writeOk e.position = true <;> simp [Function.comp, hw]

theorem earlyWrite_inv (writeOk : Nat → Bool) (es : List PEntry) :
    ∀ o ∈ es.map (fun e => if writeOk e.position
        then (⟨e.position, Outcome.succeeded, true⟩ : ORec)
        else ⟨e.position, Outcome.failed, false⟩),
      (o.outcome = Outcome.succeeded ∧ o.persisted = true)
      ∨ (o.outcome = Outcome.failed ∧ o.persisted = false) := by
  intro o ho
  rcases List.mem_map.mp ho with ⟨e, _, hfo⟩
  by_cases hw : writeOk e.position = true
  · rw [← hfo]
    simp [hw]
  · have hw2 : writeOk e.position = false := by
      revert hw; cases writeOk e.position <;> simp
    rw [← hfo]
    simp [hw2]

theorem abortBranch_props (oracle : SyncOracle) (writeOk : Nat → Bool)
    (langs : List PyStr) (es : List PEntry)
    (hnf : ∀ e ∈ es, e.needsFallback = true) :
    ((fallbackStage oracle writeOk langs 0 (es.filter (·.needsFallback))).2.1.map (·.pos)
      = posOf es)
    ∧ (∀ o ∈ (fallbackStage oracle writeOk langs 0 (es.filter (·.needsFallback))).2.1,
        (o.outcome = Outcome.succeeded ∧ o.persisted = true)
        ∨ (o.outcome = Outcome.failed ∧ o.persisted = false)) := by
  rw [filter_nf_all es hnf]
  obtain ⟨h1, _, h3, _, _⟩ := fallbackStage_recs oracle writeOk langs es 0
  exact ⟨h1, fun o ho => orec_inv_of_iff o (h3 o ho)⟩

theorem writeBranch_props (oracle : SyncOracle) (writeOk : Nat → Bool)
    (langs : List PyStr) (es : List PEntry) :
    (∀ p, ((batchWriteStage writeOk es).map (·.pos)).count p
        + (((fallbackStage oracle writeOk langs 0
              (es.filter (·.needsFallback))).2.1).map (·.pos)).count p
      = (posOf es).count p)
    ∧ (∀ o ∈ batchWriteStage writeOk es,
        (o.outcome = Outcome.succeeded ∧ o.persisted = true)
        ∨ (o.outcome = Outcome.failed ∧ o.persisted = false))
    ∧ (∀ o ∈ (fallbackStage oracle writeOk langs 0
          (es.filter (·.needsFallback))).2.1,
        (o.outcome = Outcome.succeeded ∧ o.persisted = true)
        ∨ (o.outcome = Outcome.failed ∧ o.persisted = false)) := by
  obtain ⟨h1, _, h3, _, _⟩ :=
    fallbackStage_recs oracle writeOk langs (es.filter (·.needsFallback)) 0
  refine ⟨?_, ?_, ?_⟩
  · intro p
    rw [batchWriteStage_pos, h1]
    exact count_filter_split es p
  · exact fun o ho => orec_inv_of_iff o (batchWriteStage_inv writeOk es o ho)
  · exact fun o ho => orec_inv_of_iff o (h3 o ho)

theorem runBatch_outcomes (env : BatchEnv) (ins : List EntryIn) (languages : List PyStr)
    (r : RunResult) (hr : runBatch env ins languages = some r) :
    (∀ p : Nat, ((outcomes r).map (·.pos)).count p = (ins.map (·.position)).count p)
    ∧ (∀ o ∈ outcomes r,
        (o.outcome = Outcome.succeeded ∧ o.persisted = true)
        ∨ (o.outcome = Outcome.failed ∧ o.persisted = false)) := by
  have hcnt : ∀ p : Nat,
      (prepareEntries languages ins).prepFailed.count p
        + (posOf (prepareEntries languages ins).prepared).count p
      = (ins.map (·.position)).count p := by
    intro p
    have h := prepFold_count languages ins ⟨[], [], []⟩ p
    simpa [prepareEntries, posOf] using h
  simp only [runBatch] at hr
  by_cases h1 : (prepareEntries languages ins).prepared.isEmpty
  · rw [if_pos h1] at hr
    injection hr with hr2
    rw [← hr2]
    have hpe : (prepareEntries languages ins).prepared = [] := by
      cases hh : (prepareEntries languages ins).prepared with
      | nil => rfl
      | cons a l => rw [hh] at h1; cases h1
    constructor
    · intro p
      have h2 := hcnt p
      rw [hpe] at h2
      simp only [posOf, List.map_nil, List.count_nil] at h2
      simp only [outcomes, List.append_nil, prepFailed_map_pos]
      omega
    · intro o ho
      simp only [outcomes, List.append_nil] at ho
      exact prepFailed_map_inv _ o ho
  · rw [if_neg h1] at hr
    by_cases h2 : (prepareEntries languages ins).lines.isEmpty
    · rw [if_pos h2] at hr
      injection hr with hr2
      rw [← hr2]
      constructor
      · intro p
        simp only [outcomes, List.append_nil, List.map_append, List.count_append,
          prepFailed_map_pos, earlyWrite_pos]
        exact hcnt p
      · intro o ho
        simp only [outcomes, List.append_nil, List.mem_append] at ho
        rcases ho with ho | ho
        · exact prepFailed_map_inv _ o ho
        · exact earlyWrite_inv env.writeOk _ o ho
    · rw [if_neg h2] at hr
      cases hup : env.uploadOk with
      | false =>
        simp only [hup, Bool.not_false, if_true] at hr
        injection hr with hr2
        rw [← hr2]
        obtain ⟨ha1, ha2⟩ := abortBranch_props env.oracle env.writeOk languages
          (markAllFallback (prepareEntries languages ins).prepared) (markAll_all_nf _)
        constructor
        · intro p
          simp only [outcomes, List.append_nil, List.map_append, List.count_append,
            prepFailed_map_pos, ha1, posOf_markAllFallback]
          exact hcnt p
        · intro o ho
          simp only [outcomes, List.append_nil, List.mem_append] at ho
          rcases ho with ho | ho
          · exact prepFailed_map_inv _ o ho
          · exact ha2 o ho
      | true =>
        simp only [hup, Bool.not_true, if_false] at hr
        cases hpoll : pollExit (fun k => (env.states k).status)
            (effInterval env.pollIntervalArg) (mkDeadline env.timeoutMinutes)
            env.fuel 0 with
        | none => rw [hpoll] at hr; cases hr
        | some ex =>
          rw [hpoll] at hr
          simp only [] at hr
          cases hout : (if (env.states ex.1).status = strv "SUCCESS"
              then (env.states ex.1).output else none) with
          | none =>
            rw [hout] at hr
            injection hr with hr2
            rw [← hr2]
            obtain ⟨hw1, hw2, hw3⟩ := writeBranch_props env.oracle env.writeOk languages
              (routePending (routeMissing (tasksOf (prepareEntries languages ins).lines)
                [] (markAllFallback (prepareEntries languages ins).prepared)))
            have hpos : posOf (routePending (routeMissing
                (tasksOf (prepareEntries languages ins).lines) []
                (markAllFallback (prepareEntries languages ins).prepared)))
                = posOf (prepareEntries languages ins).prepared := by
              rw [posOf_routePending, posOf_routeMissing, posOf_markAllFallback]
            constructor
            · intro p
              have h5 := hw1 p
              rw [hpos] at h5
              have h6 := hcnt p
              simp only [outcomes, List.map_append, List.count_append,
                prepFailed_map_pos]
              omega
            · intro o ho
              simp only [outcomes, List.mem_append] at ho
              rcases ho with (ho | ho) | ho
              · exact prepFailed_map_inv _ o ho
              · exact hw2 o ho
              · exact hw3 o ho
          | some outLines =>
            rw [hout] at hr
            cases hdl : env.downloadOk with
            | false =>
              simp only [hdl, Bool.not_false, if_true] at hr
              injection hr with hr2
              rw [← hr2]
              obtain ⟨ha1, ha2⟩ := abortBranch_props env.oracle env.writeOk languages
                (markAllFallback (prepareEntries languages ins).prepared)
                (markAll_all_nf _)
              constructor
              · intro p
                simp only [outcomes, List.append_nil, List.map_append,
                  List.count_append, prepFailed_map_pos, ha1, posOf_markAllFallback]
                exact hcnt p
              · intro o ho
                simp only [outcomes, List.append_nil, List.mem_append] at ho
                rcases ho with ho | ho
                · exact prepFailed_map_inv _ o ho
                · exact ha2 o ho
            | true =>
              simp only [hdl, Bool.not_true, if_false] at hr
              cases hres : resolveLines (tasksOf (prepareEntries languages ins).lines)
                  ⟨(prepareEntries languages ins).prepared, [], [], []⟩ outLines with
              | error stE =>
                rw [hres] at hr
                injection hr with hr2
                rw [← hr2]
                have hpos : posOf stE.entries
                    = posOf (prepareEntries languages ins).prepared :=
                  posOf_resolve _ outLines _ stE (Or.inr hres)
                obtain ⟨ha1, ha2⟩ := abortBranch_props env.oracle env.writeOk languages
                  (markAllFallback stE.entries) (markAll_all_nf _)
                constructor
                · intro p
                  simp only [outcomes, List.append_nil, List.map_append,
                    List.count_append, prepFailed_map_pos, ha1,
                    posOf_markAllFallback, hpos]
                  exact hcnt p
                · intro o ho
                  simp only [outcomes, List.append_nil, List.mem_append] at ho
                  rcases ho with ho | ho
                  · exact prepFailed_map_inv _ o ho
                  · exact ha2 o ho
              | ok st =>
                rw [hres] at hr
                injection hr with hr2
                rw [← hr2]
                obtain ⟨hw1, hw2, hw3⟩ := writeBranch_props env.oracle env.writeOk
                  languages (routePending (routeMissing
                    (tasksOf (prepareEntries languages ins).lines)
                    st.processed st.entries))
                have hpos : posOf (routePending (routeMissing
                    (tasksOf (prepareEntries languages ins).lines)
                    st.processed st.entries))
                    = posOf (prepareEntries languages ins).prepared := by
                  rw [posOf_routePending, posOf_routeMissing]
                  exact posOf_resolve _ outLines _ st (Or.inl hres)
                constructor
                · intro p
                  have h5 := hw1 p
                  rw [hpos] at h5
                  have h6 := hcnt p
                  simp only [outcomes, List.map_append, List.count_append,
                    prepFailed_map_pos]
                  omega
                · intro o ho
                  simp only [outcomes, List.mem_append] at ho
                  rcases ho with (ho | ho) | ho
                  · exact prepFailed_map_inv _ o ho
                  · exact hw2 o ho
                  · exact hw3 o ho

/-- C1: every work item pending at dispatch start ends the run in exactly
one terminal outcome, in both paths. Batch path: a completed `runBatch`
records, for every position, exactly as many outcome records as the input
list has items at that position — with distinct positions, exactly one
record per item — and every record is either Succeeded with the artifact
persisted or Failed with no artifact persisted, never both and never
neither. Worker-pool path: a `_worker` call on a pending item (no artifact
at its output path) yields a single result that is either a success with
the artifact persisted, or a reported failure (missing id, or retries
exhausted carrying the last error) with no artifact persisted. -/
theorem c1_exactly_one_outcome :
    (∀ (env : BatchEnv) (ins : List EntryIn) (languages : List PyStr) (r : RunResult),
        runBatch env ins languages = some r →
        (∀ p : Nat, ((outcomes r).map (fun o => o.pos)).count p
            = (ins.map (fun en => en.position)).count p)
        ∧ ((ins.map (fun en => en.position)).Nodup →
            ∀ p ∈ ins.map (fun en => en.position),
              ((outcomes r).map (fun o => o.pos)).count p = 1)
        ∧ (∀ o ∈ outcomes r,
            (o.outcome = Outcome.succeeded ∧ o.persisted = true)
            ∨ (o.outcome = Outcome.failed ∧ o.persisted = false)))
    ∧ (∀ (att : Nat → Except PyStr Unit) (rid : PyStr) (overwrite : Bool) (retries : Nat),
        ((workerRun att rid false overwrite retries).outcome = WOutcome.okDone
            ∧ (workerRun att rid false overwrite retries).persisted = true)
        ∨ (((workerRun att rid false overwrite retries).outcome = WOutcome.missingId
              ∨ ∃ l, (workerRun att rid false overwrite retries).outcome
                  = WOutcome.failed l)
            ∧ (workerRun att rid false overwrite retries).persisted = false)) := by
  constructor
  · intro env ins languages r hr
    obtain ⟨hc, hinv⟩ := runBatch_outcomes env ins languages r hr
    refine ⟨hc, ?_, hinv⟩
    intro hnd p hp
    have h1 := List.nodup_iff_count_le_one.mp hnd p
    have h2 := List.count_pos_iff.mpr hp
    have h3 := hc p
    omega
  · intro att rid overwrite retries
    by_cases hid : rid = []
    · unfold workerRun
      rw [if_pos hid]
      exact Or.inr ⟨Or.inl rfl, rfl⟩
    · unfold workerRun
      rw [if_neg hid]
      simp only [Bool.false_and, Bool.false_eq_true, if_false]
      rcases hw : wLoop att (retries + 1) 0 none with ⟨c, l, b⟩
      cases b
      · exact Or.inr ⟨Or.inr ⟨l, rfl⟩, rfl⟩
      · exact Or.inl ⟨rfl, rfl⟩

/-- Witness for C1: the theorem applied to the concrete one-item batch run
of the C10 witness environment (the single pending item at position 1 gets
exactly one outcome record) and to a concrete worker call whose first
attempt succeeds. -/
theorem c1_exactly_one_outcome_witness :
    ((outcomes wRunC10).map (fun o => o.pos)).count 1 = 1
    ∧ (((workerRun (fun _ => Except.ok ()) (strv "r") false false 2).outcome
          = WOutcome.okDone
        ∧ (workerRun (fun _ => Except.ok ()) (strv "r") false false 2).persisted = true)
      ∨ (((workerRun (fun _ => Except.ok ()) (strv "r") false false 2).outcome
            = WOutcome.missingId
          ∨ ∃ l, (workerRun (fun _ => Except.ok ()) (strv "r") false false 2).outcome
              = WOutcome.failed l)
        ∧ (workerRun (fun _ => Except.ok ()) (strv "r") false false 2).persisted
            = false)) := by
  refine ⟨(c1_exactly_one_outcome.1 wEnvC10 wInsC10 [] wRunC10 (by decide)).2.1
      (by decide) 1 (by decide),
    c1_exactly_one_outcome.2 (fun _ => Except.ok ()) (strv "r") false 2⟩
